import Mathlib

/-!
Verification development for the `table_extractor` package
(`src/table_extractor/_table.py`, `_table_extractor.py`, `_sql_validator.py`,
`_table_validation.py`).

Modelling conventions:

* Python strings are modelled as `List Char` (`Str`); ASCII case semantics
  are used (the code only matches `[a-z\d_\-]` identifiers under
  `re.IGNORECASE`, and all comment/whitespace markers are ASCII).
* Python `re` scanning (`findall` / `sub`) is hand-compiled per pattern.
  Every pattern used by the code is deterministic: each greedy sub-match
  (`\s+`, `\s*`, `([a-z\d_\-]+)`, `[^)]*`, `[^*and-slash]*`) is followed by a
  character disjoint from its class, so regex backtracking can never turn a
  local failure into a success and a non-backtracking greedy scanner is
  exactly equivalent.  `findall`/`sub` scan left to right, resuming after
  each match, which is what the fuelled scanners below do.
* Python `set` results are modelled as insertion-ordered duplicate-free
  lists (the code itself guards every `add` with a membership test).  No
  theorem below depends on the iteration order of these collections.
* `Table` (in `_table.py`) is a dataclass whose `parent_tables` field is
  commented out (line 16).  The methods `parent_table_names`, `__eq__` and
  the validator's freshness check still read `self.parent_tables`, i.e. a
  *dynamic* attribute that the dataclass never defines and that nothing in
  the package ever assigns (the linking code in `analyze` is commented
  out); reading it raises `AttributeError`.  The model therefore carries
  `parentTablesAttr : Option (List TableObj)` on each table object:
  `none` means "attribute absent" (constructor state; any read is an
  `AttributeError`), `some l` means the attribute was assigned `l`
  (as the test-suite does by monkey-patching).  Fallible operations
  return `Except PyErr _`.
* `datetime` values and other catalog cell values are modelled by
  `CatVal`; `datetime` ordering is modelled by an `Int` timestamp and the
  textual rendering of a value inside f-string error messages is
  abstracted by `CatVal.reprS` (no claim depends on that rendering).
-/

abbrev Str := List Char

/-- Code point of a character (used for all ASCII character tests). -/
def cn (c : Char) : Nat := c.toNat

/-- ASCII upper-casing, as applied by `str.upper()` / `re.IGNORECASE` on the
identifier class `[a-z\d_\-]` matched by the code. -/
def up (c : Char) : Char :=
  if h : 97 ≤ cn c ∧ cn c ≤ 122 then
    Char.mk (UInt32.mk (BitVec.ofFin ⟨cn c - 32, by simp only [cn] at h ⊢; omega⟩))
      (Or.inl (by show cn c - 32 < 55296; simp only [cn] at h ⊢; omega))
  else c

/-- Python `\s` on ASCII: space, tab, LF, VT, FF, CR. -/
def isWsC (c : Char) : Bool :=
  cn c == 32 || cn c == 9 || cn c == 10 || cn c == 11 || cn c == 12 || cn c == 13

def isLowerC (c : Char) : Bool := 97 ≤ cn c && cn c ≤ 122

def isUpperC (c : Char) : Bool := 65 ≤ cn c && cn c ≤ 90

def isDigitC (c : Char) : Bool := 48 ≤ cn c && cn c ≤ 57

/-- The identifier class `[a-z\d_\-]` under `re.IGNORECASE`. -/
def isClassC (c : Char) : Bool :=
  isLowerC c || isUpperC c || isDigitC c || cn c == 95 || cn c == 45

/-- The class `[A-Z\d_\-\.]` (IGNORECASE) of `SqlValidator._check_valid_characters`. -/
def isCatC (c : Char) : Bool := isClassC c || cn c == 46

def isDash (c : Char) : Bool := cn c == 45

def isSlash (c : Char) : Bool := cn c == 47

def isStar (c : Char) : Bool := cn c == 42

def isCr (c : Char) : Bool := cn c == 13

def isNl (c : Char) : Bool := cn c == 10

def isDot (c : Char) : Bool := cn c == 46

def isLParen (c : Char) : Bool := cn c == 40

def notRParen (c : Char) : Bool := !(cn c == 41)

def notStarSlash (c : Char) : Bool := !(isStar c || isSlash c)

/-- Python `s.split(sep)` for a one-character separator. -/
def splitCh (sep : Char) : Str → List Str
  | [] => [[]]
  | c :: cs =>
    let r := splitCh sep cs
    if c = sep then [] :: r
    else (c :: r.headD []) :: r.tail

/-- Python `sep.join(lines)` for a one-character separator. -/
def joinCh (sep : Char) : List Str → Str
  | [] => []
  | [l] => l
  | l :: ls => l ++ sep :: joinCh sep ls

/-- Head-is-a-dash test (look-ahead used by `cutLine`). -/
def startsDash : Str → Bool
  | [] => false
  | c :: _ => isDash c

/-- `re.sub("(--.*$)", "", line)`: truncate a (newline-free) line at the first
`--`. -/
def cutLine : Str → Str
  | [] => []
  | c :: cs => if isDash c && startsDash cs then [] else c :: cutLine cs

/-- The closing `\*/` of the multi-line-comment pattern: the text left
after the `[^*and-slash]*` run must start with `*/`. -/
def mlcClose : Str → Option Str
  | c3 :: c4 :: r2 => if isStar c3 && isSlash c4 then some r2 else none
  | _ => none

/-- Match `/\*[^*and-slash]*\*/` at the current position: `/*`, a run of
characters that are neither `*` nor `/`, then `*/`; returns the rest of the
input after the match. -/
def mMLC : Str → Option Str
  | c1 :: c2 :: r =>
    if isSlash c1 && isStar c2 then mlcClose (r.dropWhile notStarSlash) else none
  | _ => none

/-- `re.sub` driver for the multi-line-comment pattern (fuelled; every match
consumes at least four characters, so fuel = length suffices). -/
def mlcScan : Nat → Str → Str
  | 0, s => s
  | _ + 1, [] => []
  | fu + 1, c :: cs =>
    match mMLC (c :: cs) with
    | some r => mlcScan fu r
    | none => c :: mlcScan fu cs

/-- `TableExtractor._remove_comments`: first strip `-- …` per line, then
remove `/* … */` blocks whose interior avoids `*` and `/`. -/
def removeComments (s : Str) : Str :=
  let s1 := joinCh '\n' ((splitCh '\n' s).map cutLine)
  mlcScan s1.length s1

/-- `$` (no MULTILINE): end of string or just before a final newline. -/
def rbEnd : Str → Bool
  | [] => true
  | [c] => isNl c
  | _ => false

/-- Try the anchored pattern `^\s*\r\n$` with the `\s*` consuming exactly `k`
characters. -/
def rbAtCRLF (s : Str) (k : Nat) : Option Str :=
  if (s.take k).all isWsC then
    match s.drop k with
    | c1 :: c2 :: rest => if isCr c1 && isNl c2 && rbEnd rest then some rest else none
    | _ => none
  else none

/-- Try the anchored pattern `^\s*\n$` with the `\s*` consuming exactly `k`
characters. -/
def rbAtLF (s : Str) (k : Nat) : Option Str :=
  if (s.take k).all isWsC then
    match s.drop k with
    | c1 :: rest => if isNl c1 && rbEnd rest then some rest else none
    | _ => none
  else none

/-- Greedy `\s*`: try the longest consumption first (regex backtracking
order), returning what is left of the string after deleting the match. -/
def rbFind (f : Str → Nat → Option Str) (s : Str) : Nat → Option Str
  | 0 => f s 0
  | k + 1 =>
    match f s (k + 1) with
    | some r => some r
    | none => rbFind f s k

/-- `TableExtractor._remove_blank_lines`.  The two patterns are anchored with
`^`/`$` but compiled *without* `re.MULTILINE`, so they can only match at the
very start of the whole text; a multi-line text is returned unchanged. -/
def removeBlankLines (s : Str) : Str :=
  let s1 := (rbFind rbAtCRLF s s.length).getD s
  (rbFind rbAtLF s1 s1.length).getD s1

/-- Python `str.strip()` (ASCII whitespace). -/
def stripWs (s : Str) : Str := ((s.dropWhile isWsC).reverse.dropWhile isWsC).reverse

/-- `TableExtractor._trim_lines`: strip every line. -/
def trimLines (s : Str) : Str := joinCh '\n' ((splitCh '\n' s).map stripWs)

/-- The normalization performed at the start of `TableExtractor.analyze`:
remove comments, remove blank lines, trim lines. -/
def cleanSql (s : Str) : Str := trimLines (removeBlankLines (removeComments s))

/-- Case-insensitive literal: consume `p` (stored upper-cased) from the
input, comparing through `up`. -/
def litM : Str → Str → Option Str
  | [], s => some s
  | _ :: _, [] => none
  | p :: ps, c :: cs => if up c = p then litM ps cs else none

/-- Greedy `\s*`. -/
def ws0 (s : Str) : Str := s.dropWhile isWsC

/-- Greedy `\s+` (at least one whitespace character). -/
def ws1 : Str → Option Str
  | [] => none
  | c :: cs => if isWsC c then some (ws0 cs) else none

/-- Greedy capture group `([a-z\d_\-]+)` under IGNORECASE; the captured text
is upper-cased (all call sites apply `.upper()` to the groups). -/
def grabGrp (s : Str) : Option (Str × Str) :=
  if (s.takeWhile isClassC).isEmpty then none
  else some ((s.takeWhile isClassC).map up, s.dropWhile isClassC)

def expectDot : Str → Option Str
  | [] => none
  | c :: cs => if isDot c then some cs else none

/-- The common tail `\s+([a-z\d_\-]+)\s*\.\s*([a-z\d_\-]+)` of all the
table-reference patterns. -/
def tail2 (s : Str) : Option ((Str × Str) × Str) := do
  let s ← ws1 s
  let (a, s) ← grabGrp s
  let s ← expectDot (ws0 s)
  let (b, s2) ← grabGrp (ws0 s)
  some ((a, b), s2)

def kwFROM : Str := ['F', 'R', 'O', 'M']

def kwJOIN : Str := ['J', 'O', 'I', 'N']

def kwCREATE : Str := ['C', 'R', 'E', 'A', 'T', 'E']

def kwTABLE : Str := ['T', 'A', 'B', 'L', 'E']

def kwHADOOP : Str := ['H', 'A', 'D', 'O', 'O', 'P']

def kwRENAME : Str := ['R', 'E', 'N', 'A', 'M', 'E']

def kwTO : Str := ['T', 'O']

def kwINTO : Str := ['I', 'N', 'T', 'O']

def kwINSERT : Str := ['I', 'N', 'S', 'E', 'R', 'T']

def kwTRIM : Str := ['T', 'R', 'I', 'M']

def kwEXTRACT : Str := ['E', 'X', 'T', 'R', 'A', 'C', 'T']

/-- `from\s+(…)\s*\.\s*(…)` at the current position. -/
def mFrom (s : Str) : Option ((Str × Str) × Str) := do
  let s ← litM kwFROM s
  tail2 s

/-- `join\s+(…)\s*\.\s*(…)` at the current position. -/
def mJoin (s : Str) : Option ((Str × Str) × Str) := do
  let s ← litM kwJOIN s
  tail2 s

/-- `create\s+table\s+(…)\s*\.\s*(…)` at the current position. -/
def mCreateTable (s : Str) : Option ((Str × Str) × Str) := do
  let s ← litM kwCREATE s
  let s ← ws1 s
  let s ← litM kwTABLE s
  tail2 s

/-- `create\s+hadoop\s+table\s+(…)\s*\.\s*(…)` at the current position. -/
def mCreateHadoopTable (s : Str) : Option ((Str × Str) × Str) := do
  let s ← litM kwCREATE s
  let s ← ws1 s
  let s ← litM kwHADOOP s
  let s ← ws1 s
  let s ← litM kwTABLE s
  tail2 s

/-- `rename\s+table\s+(…)\s*\.\s*(…)\s+to\s+(…)` at the current position. -/
def mRename (s : Str) : Option ((Str × Str × Str) × Str) := do
  let s ← litM kwRENAME s
  let s ← ws1 s
  let s ← litM kwTABLE s
  let ((a, b), s) ← tail2 s
  let s ← ws1 s
  let s ← litM kwTO s
  let s ← ws1 s
  let (c, s2) ← grabGrp s
  some ((a, b, c), s2)

/-- `into\s+table\s+(…)\s*\.\s*(…)` at the current position. -/
def mIntoTable (s : Str) : Option ((Str × Str) × Str) := do
  let s ← litM kwINTO s
  let s ← ws1 s
  let s ← litM kwTABLE s
  tail2 s

/-- `insert\s+into\s+(…)\s*\.\s*(…)` at the current position. -/
def mInsertInto (s : Str) : Option ((Str × Str) × Str) := do
  let s ← litM kwINSERT s
  let s ← ws1 s
  let s ← litM kwINTO s
  tail2 s

/-- `re.findall` driver: scan left to right, resuming after each match
(every match consumes at least one character, so fuel = length suffices). -/
def scanP {α : Type} (m : Str → Option (α × Str)) : Nat → Str → List α
  | 0, _ => []
  | _ + 1, [] => []
  | fu + 1, c :: cs =>
    match m (c :: cs) with
    | some (a, r) => a :: scanP m fu r
    | none => scanP m fu cs

def findAll {α : Type} (m : Str → Option (α × Str)) (s : Str) : List α :=
  scanP m s.length s

/-- Does the string contain `kw` (case-insensitively) as a substring? -/
def containsKw (kw : Str) : Str → Bool
  | [] => false
  | c :: cs => (litM kw (c :: cs)).isSome || containsKw kw cs

/-- The part of the masking pattern after the opening parenthesis: the run
`[^)]*` up to the first `)` must contain `from`; the match extends through
that `)`. -/
def maskAfterParen (cs : Str) : Option Str :=
  match cs.dropWhile notRParen with
  | _ :: r2 => if containsKw kwFROM (cs.takeWhile notRParen) then some r2 else none
  | [] => none

/-- Match `kw\s*\([^)]*from[^)]*\)` at the current position (the masking
patterns of `_identify_source_tables`): `kw`, optional whitespace, `(`, then
the run up to the first `)`, which must contain `from`. -/
def mMaskOne (kw : Str) (s : Str) : Option Str := do
  let s ← litM kw s
  match ws0 s with
  | c :: cs => if isLParen c then maskAfterParen cs else none
  | [] => none

/-- `re.sub(pattern, "x", s)` driver for the masking patterns. -/
def maskScan (kw : Str) : Nat → Str → Str
  | 0, s => s
  | _ + 1, [] => []
  | fu + 1, c :: cs =>
    match mMaskOne kw (c :: cs) with
    | some r => 'x' :: maskScan kw fu r
    | none => c :: maskScan kw fu cs

/-- The two masking substitutions (TRIM, then EXTRACT) applied by
`_identify_source_tables` before scanning for source tables. -/
def maskTE (s : Str) : Str :=
  let s1 := maskScan kwTRIM s.length s
  maskScan kwEXTRACT s1.length s1

/-- Membership-guarded set accumulation (the code's
`if table not in tables: tables.add(table)`), kept in insertion order. -/
def dedupL {α : Type} [DecidableEq α] (l : List α) : List α :=
  l.foldl (fun acc t => if t ∈ acc then acc else acc ++ [t]) []

/-- `f"{r[0].upper()}.{r[1].upper()}"` (the groups are already upper-cased
by `grabGrp`). -/
def joinName (p : Str × Str) : Str := p.1 ++ '.' :: p.2

/-- `TableExtractor._identify_source_tables`. -/
def idSourceTables (s : Str) : List Str :=
  let m := maskTE s
  dedupL ((findAll mFrom m ++ findAll mJoin m).map joinName)

/-- `TableExtractor._identify_target_tables`. -/
def idTargetTables (s : Str) : List Str :=
  dedupL ((findAll mCreateTable s ++ findAll mCreateHadoopTable s).map joinName)

/-- `TableExtractor._identify_renamed_tables`; each match yields the pair
(original full name, new full name with the same schema). -/
def idRenamedTables (s : Str) : List (Str × Str) :=
  dedupL ((findAll mRename s).map (fun t => (t.1 ++ '.' :: t.2.1, t.1 ++ '.' :: t.2.2)))

/-- `TableExtractor._identify_populated_tables`. -/
def idPopulatedTables (s : Str) : List Str :=
  dedupL ((findAll mIntoTable s ++ findAll mInsertInto s).map joinName)

/-- A runtime `Table` object of `_table.py`.  The dataclass fields are
`schema`, `name`, `sql`, `used`, `created`, `renamed`, `populated`; the
`parent_tables` field is commented out in the source, so `parentTablesAttr`
models the *dynamic* attribute of the same name: `none` = attribute never
assigned (the state of every object the package itself constructs),
`some l` = attribute assigned `l` externally. -/
inductive TableObj : Type where
  | mk (schema name sql : Str) (used created renamed populated : Bool)
      (parentTablesAttr : Option (List TableObj)) : TableObj

def TableObj.schema : TableObj → Str
  | .mk v _ _ _ _ _ _ _ => v

def TableObj.name : TableObj → Str
  | .mk _ v _ _ _ _ _ _ => v

def TableObj.sql : TableObj → Str
  | .mk _ _ v _ _ _ _ _ => v

def TableObj.used : TableObj → Bool
  | .mk _ _ _ v _ _ _ _ => v

def TableObj.created : TableObj → Bool
  | .mk _ _ _ _ v _ _ _ => v

def TableObj.renamed : TableObj → Bool
  | .mk _ _ _ _ _ v _ _ => v

def TableObj.populated : TableObj → Bool
  | .mk _ _ _ _ _ _ v _ => v

def TableObj.parentTablesAttr : TableObj → Option (List TableObj)
  | .mk _ _ _ _ _ _ _ v => v

/-- `Table.full_name`: `f"{self.schema}.{self.name}"`. -/
def TableObj.fullName (t : TableObj) : Str := t.schema ++ '.' :: t.name

/-- Python `st.split(".")`. -/
def splitDot (s : Str) : List Str := splitCh '.' s

/-- `Table(schema=st.split(".")[0], name=st.split(".")[1])` with all defaults.
(Python raises `IndexError` on a dot-free key; every key produced by the
identify functions contains exactly one dot, see `wfKey` below, so the
`getD` defaults are never exercised.) -/
def tableFromKey (k : Str) : TableObj :=
  .mk ((splitDot k).getD 0 []) ((splitDot k).getD 1 []) [] false false false false none

/-- `cash[st].used = True` (source-table upsert mutation). -/
def setUsed (t : TableObj) : TableObj :=
  .mk t.schema t.name t.sql true t.created t.renamed t.populated t.parentTablesAttr

/-- `cash[tt].created = True; cash[tt].sql = sql` (target-table mutation). -/
def setCreated (sq : Str) (t : TableObj) : TableObj :=
  .mk t.schema t.name sq t.used true t.renamed t.populated t.parentTablesAttr

/-- `cash[rt].renamed = True; cash[rt].sql = sql` (renamed-table mutation). -/
def setRenamed (sq : Str) (t : TableObj) : TableObj :=
  .mk t.schema t.name sq t.used t.created true t.populated t.parentTablesAttr

/-- `cash[pt].populated = True; cash[pt].sql = sql` (populated-table
mutation; the code always assigns `sql` right after ensuring the entry). -/
def setPopulated (sq : Str) (t : TableObj) : TableObj :=
  .mk t.schema t.name sq t.used t.created t.renamed true t.parentTablesAttr

/-- The `_table_cash` dict: insertion-ordered map from full name to table. -/
abbrev Registry := List (Str × TableObj)

def rlook : Registry → Str → Option TableObj
  | [], _ => none
  | (k', t) :: r, k => if k' = k then some t else rlook r k

def rmod : Registry → Str → (TableObj → TableObj) → Registry
  | [], _, _ => []
  | (k', t) :: r, k, f => if k' = k then (k', f t) :: r else (k', t) :: rmod r k f

/-- The code's upsert idiom: mutate the cached entry if the key is present,
otherwise insert a fresh `Table` built from the key and mutate that. -/
def upsert (reg : Registry) (k : Str) (f : TableObj → TableObj) : Registry :=
  if (rlook reg k).isSome then rmod reg k f else reg ++ [(k, f (tableFromKey k))]

/-- The per-statement extraction results consumed by the merge loop of
`TableExtractor.analyze` (`sql` is the statement text itself). -/
structure StmtInfo where
  sources : List Str
  targets : List Str
  renames : List (Str × Str)
  pops : List Str
  sql : Str

def stmtInfo (st : Str) : StmtInfo :=
  ⟨idSourceTables st, idTargetTables st, idRenamedTables st, idPopulatedTables st, st⟩

def procSources (reg : Registry) (l : List Str) : Registry :=
  l.foldl (fun reg k => upsert reg k setUsed) reg

def procTargets (sq : Str) (reg : Registry) (l : List Str) : Registry :=
  l.foldl (fun reg k => upsert reg k (setCreated sq)) reg

def procRenames (sq : Str) (reg : Registry) (l : List (Str × Str)) : Registry :=
  l.foldl (fun reg p => upsert (upsert reg p.1 setUsed) p.2 (setRenamed sq)) reg

def procPops (sq : Str) (reg : Registry) (l : List Str) : Registry :=
  l.foldl (fun reg k => upsert reg k (setPopulated sq)) reg

/-- One iteration of the statement loop in `TableExtractor.analyze`:
source tables, then target tables, then renamed tables, then populated
tables (the lineage-linking code in all three blocks is commented out in
the source and therefore absent here). -/
def processStmt (reg : Registry) (si : StmtInfo) : Registry :=
  procPops si.sql
    (procRenames si.sql
      (procTargets si.sql (procSources reg si.sources) si.targets) si.renames)
    si.pops

/-- `TableExtractor.analyze`: normalize, split on `;`, process each
statement. -/
def analyzeReg (s : Str) : Registry :=
  ((splitCh ';' (cleanSql s)).map stmtInfo).foldl processStmt []

/-- `self.tables` after `analyze`: the registry's values. -/
def analyzeTables (s : Str) : List TableObj := (analyzeReg s).map Prod.snd

/-- Python exceptions that the modelled fragments can raise. -/
inductive PyErr : Type where
  | attributeErr : PyErr
deriving DecidableEq

/-- Lexicographic (code-point) strict order on strings, as used by Python
`list.sort()` on `str`. -/
def strLt : Str → Str → Bool
  | [], [] => false
  | [], _ :: _ => true
  | _ :: _, [] => false
  | a :: l1, b :: l2 => if cn a < cn b then true else if cn a == cn b then strLt l1 l2 else false

def insertSorted (x : Str) : List Str → List Str
  | [] => [x]
  | y :: ys => if strLt y x then y :: insertSorted x ys else x :: y :: ys

def sortStrs : List Str → List Str
  | [] => []
  | x :: xs => insertSorted x (sortStrs xs)

/-- `Table.parent_table_names`: sorted full names of the parent tables;
raises `AttributeError` when the `parent_tables` attribute was never
assigned. -/
def parentTableNames (t : TableObj) : Except PyErr (List Str) :=
  match t.parentTablesAttr with
  | none => .error .attributeErr
  | some l => .ok (sortStrs (l.map TableObj.fullName))

/-- `Table.__eq__`: compares `full_name`, `sql`, `used`, `created`, `name`
and `parent_table_names`, in that order, with Python `and` short-circuiting
(so `parent_table_names` — which can raise — is only evaluated when all
earlier fields agree).  `renamed` and `populated` are not consulted. -/
def tableEq (a b : TableObj) : Except PyErr Bool :=
  if a.fullName ≠ b.fullName then .ok false
  else if a.sql ≠ b.sql then .ok false
  else if a.used ≠ b.used then .ok false
  else if a.created ≠ b.created then .ok false
  else if a.name ≠ b.name then .ok false
  else do
    let pa ← parentTableNames a
    let pb ← parentTableNames b
    .ok (pa == pb)

/-- A value read from the table catalog / a freshness query (`datetime`
ordering is modelled by an `Int` timestamp). -/
inductive CatVal : Type where
  | vNone : CatVal
  | dt (t : Int) : CatVal
  | vStr (s : Str) : CatVal
deriving DecidableEq

/-- Python truthiness of the modelled values. -/
def CatVal.truthy : CatVal → Bool
  | .vNone => false
  | .dt _ => true
  | .vStr s => !s.isEmpty

/-- `isinstance(v, datetime)`. -/
def CatVal.isDatetime : CatVal → Bool
  | .dt _ => true
  | _ => false

/-- `type(v).__name__`. -/
def CatVal.typeName : CatVal → Str
  | .vNone => "NoneType".data
  | .dt _ => "datetime".data
  | .vStr _ => "str".data

/-- `str(v)` as interpolated into f-string messages (rendering abstracted;
no claim depends on it). -/
def CatVal.reprS : CatVal → Str
  | .vNone => "None".data
  | .dt t => "datetime:".data ++ (toString t).data
  | .vStr s => s

/-- `a > b` on two datetimes (only evaluated by the code after both sides
are known to be datetimes). -/
def cvGt : CatVal → CatVal → Bool
  | .dt a, .dt b => b < a
  | _, _ => false

/-- Outcome of `cursor.execute(max-query)` + `fetchone()` for one table. -/
inductive QueryOutcome : Type where
  | qErr : QueryOutcome
  | qNoRow : QueryOutcome
  | qVal (v : CatVal) : QueryOutcome
deriving DecidableEq

/-- The `TableValidation` dataclass of `_table_validation.py` (defaults as
in the source). -/
structure TableValidation where
  table : TableObj
  inDatabase : Bool := false
  inTableCatalog : Bool := false
  updateFrequency : Str := []
  updateColumn : Str := []
  minimumUpdateTs : CatVal := .vNone
  nextRegularUpdateTs : CatVal := .vNone
  actualUpdateTs : CatVal := .vNone
  contentCurrent : Bool := false
  validationSuccessful : Bool := false
  validationError : Str := []

/-- `SqlValidator._check_valid_characters`. -/
def checkValidCharacters (s : Str) : Bool := s.all isCatC

def msgNotFound : Str := "table not found in the database".data

def msgNotRegistered (cat : Str) : Str := "table not registered in ".data ++ cat

def msgBlankCol : Str := "update column name is blank".data

def msgInvalidCol : Str := "the upload column name contains invalid characters".data

def msgInvalidMin (v : CatVal) : Str :=
  "invalid minimum update timestamp in the table catalog:  ".data ++ v.reprS

def maxQuery (col nm : Str) : Str := "select max(".data ++ col ++ ") from ".data ++ nm

def msgUnable (q : Str) : Str := "unable to run query ".data ++ q

def msgBlankTable : Str := "table is blank".data

def msgBadType (col tn : Str) : Str :=
  "invalid data type in ".data ++ col ++ " - datetime expected, ".data ++ tn ++ " received".data

def msgOutdated (minv actv : CatVal) : Str :=
  "outdated data - minimal update: ".data ++ minv.reprS ++ ", actual update: ".data ++ actv.reprS

/-- The loop body of `SqlValidator._check_table_content` for one
`TableValidation` record.  `cat` is `self.table_catalog`; `q` is the
database's answer to this table's `select max(update_column)` query (only
consulted when the code actually issues that query).  `Except.error`
models an uncaught Python exception aborting the whole validation pass. -/
def checkOne (cat : Str) (q : QueryOutcome) (tv : TableValidation) : Except PyErr TableValidation :=
  if tv.inDatabase = false ∧ tv.table.created = false ∧ tv.table.renamed = false then
    .ok { tv with validationError := msgNotFound }
  else if tv.inTableCatalog = false then
    .ok { tv with validationError := msgNotRegistered cat }
  else if tv.updateColumn.isEmpty then
    .ok { tv with validationError := msgBlankCol }
  else if checkValidCharacters tv.updateColumn = false then
    .ok { tv with validationError := msgInvalidCol }
  else if (tv.minimumUpdateTs.truthy && tv.minimumUpdateTs.isDatetime) = false then
    .ok { tv with validationError := msgInvalidMin tv.minimumUpdateTs }
  else if tv.table.created = false ∧ tv.table.renamed = false ∧ tv.table.populated = false then
    match q with
    | .qErr =>
      .ok { tv with validationError := msgUnable (maxQuery tv.updateColumn tv.table.fullName) }
    | .qNoRow => .ok { tv with validationError := msgBlankTable }
    | .qVal v =>
      if v = .vNone then .ok { tv with validationError := msgBlankTable }
      else if v.isDatetime = false then
        .ok { tv with validationError := msgBadType tv.updateColumn v.typeName }
      else
        let tv1 := { tv with actualUpdateTs := v }
        if cvGt tv1.minimumUpdateTs v then
          match tv1.table.parentTablesAttr with
          | none => .error .attributeErr
          | some ps =>
            if ps.length = 0 then
              .ok { tv1 with validationError := msgOutdated tv1.minimumUpdateTs v }
            else .ok { tv1 with contentCurrent := true, validationSuccessful := true }
        else .ok { tv1 with contentCurrent := true, validationSuccessful := true }
  else .ok { tv with validationSuccessful := true }

/-- `SqlValidator.validation_successful`: `False` on an empty list,
otherwise the conjunction of all per-table flags (the source folds with
`validation = validation and tv.validation_successful`). -/
def validationSuccessfulAll (tvs : List TableValidation) : Bool :=
  match tvs with
  | [] => false
  | _ => tvs.foldl (fun v tv => v && tv.validationSuccessful) true

/-- A well-formed registry key: rebuilding a `Table` from it by
`split(".")` recovers the key as the table's `full_name`.  Every key the
identify functions produce is of the shape `SCHEMA.NAME` with non-empty
dot-free components and hence well formed (`wfKey_idSourceTables` etc.). -/
def wfKey (k : Str) : Prop := (tableFromKey k).fullName = k

/-- All table names mentioned by a statement's extraction results are
well-formed keys. -/
def wfStmt (si : StmtInfo) : Prop :=
  (∀ k ∈ si.sources, wfKey k) ∧ (∀ k ∈ si.targets, wfKey k) ∧
    (∀ p ∈ si.renames, wfKey p.1 ∧ wfKey p.2) ∧ (∀ k ∈ si.pops, wfKey k)

/-- `k` is a "defining" mention in the statement: a CREATE target, the new
name of a RENAME, or an INSERT/LOAD target — exactly the places where the
merge loop assigns `sql`. -/
def definedIn (si : StmtInfo) (k : Str) : Prop :=
  k ∈ si.targets ∨ k ∈ si.renames.map Prod.snd ∨ k ∈ si.pops

/-- The registry invariant: keys are pairwise distinct and every stored
table's `full_name` is its key (so there is at most one `Table` instance
per `full_name`). -/
def RegistryWf (reg : Registry) : Prop :=
  (reg.map Prod.fst).Nodup ∧ ∀ p ∈ reg, p.2.fullName = p.1

/-- Flag monotonicity between two table states: every boolean flag that is
set in `t` is still set in `t'` (the merge loop only ever raises flags). -/
def flagsMono (t t' : TableObj) : Prop :=
  (t.used = true → t'.used = true) ∧ (t.created = true → t'.created = true) ∧
    (t.renamed = true → t'.renamed = true) ∧ (t.populated = true → t'.populated = true)

/-- Case-equivalence of two optional scanner remainders: both fail, or
both succeed with case-equivalent rests. -/
def ORel : Option Str → Option Str → Prop
  | none, none => True
  | some r1, some r2 => r1.map up = r2.map up
  | _, _ => False

/-- Case-equivalence of two optional match results: both fail, or both
succeed with *equal* captures (captures are upper-cased by the scanner)
and case-equivalent rests. -/
def OPRel {α : Type} : Option (α × Str) → Option (α × Str) → Prop
  | none, none => True
  | some (a, r1), some (b, r2) => a = b ∧ r1.map up = r2.map up
  | _, _ => False

/-- Sample validation record used by the C3 witness: a table `created` in
this run, absent from the database, with all catalog gates passing. -/
def tvSampleCreated : TableValidation :=
  { table := TableObj.mk "S".data "N".data [] false true false false none,
    inTableCatalog := true, updateColumn := "U".data, minimumUpdateTs := .dt 5 }

/-! ### Helper lemmas -/

theorem foldl_and_validation (l : List TableValidation) (b : Bool) :
    l.foldl (fun v tv => v && tv.validationSuccessful) b =
      (b && l.all fun tv => tv.validationSuccessful) := by
  induction l generalizing b with
  | nil => simp
  | cons h t ih => simp [List.foldl, ih, Bool.and_assoc]

/-! ### Claims -/

/-- C4: `SqlValidator.validation_successful` is true iff the list of
`TableValidation` records is non-empty and every record's
`validation_successful` field is true; for an empty list it is false. -/
theorem validation_successful_iff (tvs : List TableValidation) :
    validationSuccessfulAll tvs = true ↔
      tvs ≠ [] ∧ ∀ tv ∈ tvs, tv.validationSuccessful = true := by
  cases tvs with
  | nil => simp [validationSuccessfulAll]
  | cons h t => simp [validationSuccessfulAll, foldl_and_validation, List.all_eq_true]

/-- C9 counterexample: `Table` does NOT case-normalize at creation.  A
`Table` constructed with schema `"a"` and name `"b"` stores them verbatim
and yields full name `"a.b"`, not `"A.B"` — the dataclass has no
`__post_init__` and upper-casing happens only in the extractor's identify
functions (the repository's own `test_table_fields` asserts the verbatim
lower-case behaviour). -/
theorem table_not_uppercased_at_creation :
    (TableObj.mk "a".data "b".data [] false false false false none).schema = "a".data ∧
    (TableObj.mk "a".data "b".data [] false false false false none).fullName = "a.b".data ∧
    "a".data ≠ "A".data ∧ "a.b".data ≠ "A.B".data :=
  ⟨rfl, rfl, by decide, by decide⟩

/-- C9 (amended): `Table` stores `schema` and `name` exactly as
constructed (no case normalization at creation; the extractor upper-cases
identifiers *before* constructing tables), and `full_name` always equals
`schema + "." + name`. -/
theorem table_fields_verbatim (sc nm sq : Str) (u c r p : Bool)
    (a : Option (List TableObj)) :
    (TableObj.mk sc nm sq u c r p a).schema = sc ∧
    (TableObj.mk sc nm sq u c r p a).name = nm ∧
    (TableObj.mk sc nm sq u c r p a).fullName = sc ++ '.' :: nm :=
  ⟨rfl, rfl, rfl⟩

/-- C5: a table with `in_database = false`, `created = false`,
`renamed = false` gets `validation_error = "table not found in the
database"` from the very first check of `_check_table_content`; no other
field changes (in particular `validation_successful` keeps its `false`
default) and no later check runs — the result does not depend on the
catalog name or on the database's answer to the freshness query. -/
theorem check_not_in_database (cat : Str) (q : QueryOutcome) (tv : TableValidation)
    (h1 : tv.inDatabase = false) (h2 : tv.table.created = false)
    (h3 : tv.table.renamed = false) :
    checkOne cat q tv = .ok { tv with validationError := msgNotFound } := by
  simp [checkOne, h1, h2, h3]

theorem check_not_in_database_witness :
    checkOne [] .qErr { table := TableObj.mk "S".data "N".data [] false false false false none } =
      .ok { table := TableObj.mk "S".data "N".data [] false false false false none,
            validationError := msgNotFound } :=
  check_not_in_database [] .qErr _ rfl rfl rfl

/-- C10: `Table.__eq__` disregards `renamed` and `populated`: two table
objects (whose `parent_tables` attribute has been assigned, so that
`parent_table_names` is readable) that agree on `full_name`, `sql`,
`used`, `created`, `name` and the sorted parent-name lists compare equal,
whatever their `renamed` and `populated` flags are. -/
theorem table_eq_ignores_renamed_populated (a b : TableObj) (la lb : List TableObj)
    (ha : a.parentTablesAttr = some la) (hb : b.parentTablesAttr = some lb)
    (h1 : a.fullName = b.fullName) (h2 : a.sql = b.sql) (h3 : a.used = b.used)
    (h4 : a.created = b.created) (h5 : a.name = b.name)
    (h6 : sortStrs (la.map TableObj.fullName) = sortStrs (lb.map TableObj.fullName)) :
    tableEq a b = .ok true := by
  simp only [tableEq, parentTableNames, ha, hb, h1, h2, h3, h4, h5, h6, ne_eq,
    not_true_eq_false, if_false, ite_self]
  exact congrArg Except.ok (beq_self_eq_true _)

theorem table_eq_ignores_renamed_populated_witness :
    tableEq (TableObj.mk "S".data "N".data "q".data true true false false (some []))
      (TableObj.mk "S".data "N".data "q".data true true true true (some [])) = .ok true :=
  table_eq_ignores_renamed_populated _ _ [] [] rfl rfl rfl rfl rfl rfl rfl rfl

/-- C2 (code-bug evidence): for a pure-source table that passes gates 1–5
and whose `MAX(update_column)` query returns a datetime older than
`minimum_update_ts`, `_check_table_content` evaluates
`len(tv.table.parent_tables)` — but `Table` objects built by the extractor
have no `parent_tables` attribute (the field is commented out in
`_table.py` and the linking code in `analyze` is commented out), so the
pass aborts with `AttributeError` instead of recording the "outdated data"
error (first conjunct).  With a fresh timestamp the comparison
short-circuits before the attribute read and validation succeeds (second
conjunct), showing gates 1–5 pass on this input. -/
theorem freshness_check_raises_attribute_error :
    checkOne "CAT.TBL".data (.qVal (.dt 50))
      { table := TableObj.mk "A".data "B".data [] true false false false none,
        inDatabase := true, inTableCatalog := true, updateColumn := "UPLOAD".data,
        minimumUpdateTs := .dt 100 } = .error .attributeErr ∧
    checkOne "CAT.TBL".data (.qVal (.dt 50))
      { table := TableObj.mk "A".data "B".data [] true false false false none,
        inDatabase := true, inTableCatalog := true, updateColumn := "UPLOAD".data,
        minimumUpdateTs := .dt 10 } =
      .ok { table := TableObj.mk "A".data "B".data [] true false false false none,
            inDatabase := true, inTableCatalog := true, updateColumn := "UPLOAD".data,
            minimumUpdateTs := .dt 10, actualUpdateTs := .dt 50,
            contentCurrent := true, validationSuccessful := true } :=
  ⟨rfl, rfl⟩

/-- C1 (code-bug evidence): analyzing
`"create table new.table as select * from old.table"` yields exactly two
tables; `NEW.TABLE` is upserted with `created = true` and `sql` set to the
statement text — but *no* lineage edge is recorded: the stored object's
`parent_tables` attribute is absent (`none`), and reading
`parent_table_names` on it raises `AttributeError`, instead of the claimed
single parent `OLD.TABLE`. -/
theorem create_table_no_lineage_recorded :
    (analyzeReg "create table new.table as select * from old.table".data).length = 2 ∧
    rlook (analyzeReg "create table new.table as select * from old.table".data)
        "OLD.TABLE".data =
      some (TableObj.mk "OLD".data "TABLE".data [] true false false false none) ∧
    rlook (analyzeReg "create table new.table as select * from old.table".data)
        "NEW.TABLE".data =
      some (TableObj.mk "NEW".data "TABLE".data
        "create table new.table as select * from old.table".data false true false false none) ∧
    parentTableNames (TableObj.mk "NEW".data "TABLE".data
        "create table new.table as select * from old.table".data false true false false none) =
      .error .attributeErr :=
  ⟨rfl, rfl, rfl, rfl⟩

/-- C8 (code-bug evidence): the multi-line comment pattern
`/\*[^*and-slash]*\*/` refuses `*` and `/` inside the block, so a comment
containing a slash survives normalization verbatim: on
`"select 1 -- c\n/*a/b*/ select 2"` the `--` comment is stripped but the
block `/*a/b*/` — comment content included — is still present in the
normalized output, contradicting both the claim and the function's own
docstring ("remove all text in between the markers"). -/
theorem comment_block_with_slash_survives :
    cleanSql "select 1 -- c\n/*a/b*/ select 2".data =
      "select 1\n/*a/b*/ select 2".data := rfl

/-- C3: a table flagged `created`, `renamed` or `populated` never reaches
the freshness query: the validation outcome is independent of the
database's answer (first conjunct), and once gates 1–5 pass such a table
goes straight to `validation_successful = true` (second conjunct). -/
theorem created_renamed_populated_skip_freshness (cat : Str) (q q' : QueryOutcome)
    (tv : TableValidation)
    (hflag : tv.table.created = true ∨ tv.table.renamed = true ∨ tv.table.populated = true) :
    checkOne cat q tv = checkOne cat q' tv ∧
      ((tv.inDatabase = true ∨ tv.table.created = true ∨ tv.table.renamed = true) →
        tv.inTableCatalog = true → tv.updateColumn ≠ [] →
        checkValidCharacters tv.updateColumn = true →
        tv.minimumUpdateTs.truthy = true → tv.minimumUpdateTs.isDatetime = true →
        checkOne cat q tv = .ok { tv with validationSuccessful := true }) := by
  have hg6 : ¬(tv.table.created = false ∧ tv.table.renamed = false ∧
      tv.table.populated = false) := by
    rcases hflag with h | h | h <;> simp [h]
  constructor
  · rcases hflag with h | h | h <;> simp [checkOne, h]
  · intro g1 g2 g3 g4 g5 g6
    have hg1 : ¬(tv.inDatabase = false ∧ tv.table.created = false ∧
        tv.table.renamed = false) := by
      rcases g1 with h | h | h <;> simp [h]
    simp [checkOne, hg1, g2, g3, g4, g5, g6, hg6, List.isEmpty_iff]

theorem created_renamed_populated_skip_freshness_witness :
    checkOne [] .qErr tvSampleCreated = checkOne [] (.qVal (.vStr "z".data)) tvSampleCreated ∧
    checkOne [] .qErr tvSampleCreated = .ok { tvSampleCreated with validationSuccessful := true } :=
  ⟨(created_renamed_populated_skip_freshness [] .qErr (.qVal (.vStr "z".data))
      tvSampleCreated (Or.inl rfl)).1,
   (created_renamed_populated_skip_freshness [] .qErr (.qVal (.vStr "z".data))
      tvSampleCreated (Or.inl rfl)).2 (Or.inr (Or.inl rfl)) rfl (by decide) rfl rfl rfl⟩

/-! ### Registry lemmas (for the `analyze` merge-loop invariants) -/

theorem rlook_rmod (reg : Registry) (k : Str) (f : TableObj → TableObj) (k' : Str) :
    rlook (rmod reg k f) k' =
      if k' = k then (rlook reg k).map f else rlook reg k' := by
  induction reg with
  | nil => simp [rmod, rlook]
  | cons p r ih =>
    obtain ⟨k0, t0⟩ := p
    by_cases h1 : k0 = k
    · subst h1
      by_cases h2 : k' = k0
      · subst h2
        simp [rmod, rlook]
      · simp [rmod, rlook, h2, Ne.symm h2]
    · by_cases h2 : k0 = k'
      · subst h2
        simp [rmod, rlook, h1]
      · simp [rmod, rlook, h1, h2, ih]

theorem rlook_append_some (reg l : Registry) (k' : Str) (x : TableObj)
    (h : rlook reg k' = some x) : rlook (reg ++ l) k' = some x := by
  induction reg with
  | nil => simp [rlook] at h
  | cons p r ih =>
    obtain ⟨k0, t0⟩ := p
    by_cases h0 : k0 = k'
    · rw [rlook, if_pos h0] at h
      simpa [rlook, h0] using h
    · rw [rlook, if_neg h0] at h
      simpa [rlook, h0] using ih h

theorem rlook_append_none (reg : Registry) (k : Str) (t : TableObj) (k' : Str)
    (h : rlook reg k' = none) :
    rlook (reg ++ [(k, t)]) k' = if k = k' then some t else none := by
  induction reg with
  | nil => simp [rlook]
  | cons p r ih =>
    obtain ⟨k0, t0⟩ := p
    by_cases h0 : k0 = k'
    · rw [rlook, if_pos h0] at h
      exact absurd h (by simp)
    · rw [rlook, if_neg h0] at h
      simpa [rlook, h0] using ih h

theorem rlook_isSome_iff (reg : Registry) (k : Str) :
    (rlook reg k).isSome = true ↔ k ∈ reg.map Prod.fst := by
  induction reg with
  | nil => simp [rlook]
  | cons p r ih =>
    obtain ⟨k0, t0⟩ := p
    by_cases h : k0 = k
    · subst h
      rw [rlook, if_pos rfl, List.map_cons]
      exact ⟨fun _ => List.mem_cons_self _ _, fun _ => rfl⟩
    · rw [rlook, if_neg h, List.map_cons]
      constructor
      · intro hx
        exact List.mem_cons_of_mem _ (ih.mp hx)
      · intro hx
        rcases List.mem_cons.mp hx with h1 | h1
        · exact absurd h1.symm h
        · exact ih.mpr h1

theorem keys_rmod (reg : Registry) (k : Str) (f : TableObj → TableObj) :
    (rmod reg k f).map Prod.fst = reg.map Prod.fst := by
  induction reg with
  | nil => simp [rmod]
  | cons p r ih =>
    obtain ⟨k0, t0⟩ := p
    by_cases h : k0 = k <;> simp [rmod, h, ih]

theorem keys_upsert (reg : Registry) (k : Str) (f : TableObj → TableObj) :
    (upsert reg k f).map Prod.fst =
      if (rlook reg k).isSome then reg.map Prod.fst else reg.map Prod.fst ++ [k] := by
  unfold upsert
  by_cases h : (rlook reg k).isSome <;> simp [h, keys_rmod]

theorem nodup_upsert (reg : Registry) (k : Str) (f : TableObj → TableObj)
    (h : (reg.map Prod.fst).Nodup) : ((upsert reg k f).map Prod.fst).Nodup := by
  rw [keys_upsert]
  by_cases hs : (rlook reg k).isSome
  · simpa [hs] using h
  · have : k ∉ reg.map Prod.fst := by
      rw [← rlook_isSome_iff]
      simp [hs]
    simp [hs, List.nodup_append, h, this]

theorem rlook_upsert_same (reg : Registry) (k : Str) (f : TableObj → TableObj) :
    rlook (upsert reg k f) k = some (f ((rlook reg k).getD (tableFromKey k))) := by
  unfold upsert
  cases hx : rlook reg k with
  | some t => simp [hx, rlook_rmod]
  | none => simp [hx, rlook_append_none reg k _ k hx]

theorem rlook_upsert_other (reg : Registry) (k : Str) (f : TableObj → TableObj)
    (k' : Str) (h : k' ≠ k) : rlook (upsert reg k f) k' = rlook reg k' := by
  unfold upsert
  by_cases hs : (rlook reg k).isSome
  · simp [hs, rlook_rmod, h]
  · rw [if_neg hs]
    cases hx : rlook reg k' with
    | some t => exact rlook_append_some reg _ k' t hx
    | none => simp [rlook_append_none reg k _ k' hx, Ne.symm h]

theorem mem_rmod (reg : Registry) (k : Str) (f : TableObj → TableObj)
    (p : Str × TableObj) (h : p ∈ rmod reg k f) :
    p ∈ reg ∨ ∃ t, (p.1, t) ∈ reg ∧ p.2 = f t := by
  induction reg with
  | nil => simp [rmod] at h
  | cons q r ih =>
    obtain ⟨k0, t0⟩ := q
    by_cases h0 : k0 = k
    · rw [rmod, if_pos h0] at h
      rcases List.mem_cons.mp h with h1 | h1
      · right
        exact ⟨t0, by simp [h1], by simp [h1]⟩
      · exact Or.inl (List.mem_cons_of_mem _ h1)
    · rw [rmod, if_neg h0] at h
      rcases List.mem_cons.mp h with h1 | h1
      · exact Or.inl (by simp [h1])
      · rcases ih h1 with h2 | ⟨t, h2, h3⟩
        · exact Or.inl (List.mem_cons_of_mem _ h2)
        · exact Or.inr ⟨t, List.mem_cons_of_mem _ h2, h3⟩

theorem wf_upsert (reg : Registry) (k : Str) (f : TableObj → TableObj)
    (hreg : ∀ p ∈ reg, p.2.fullName = p.1)
    (hf : ∀ t : TableObj, (f t).fullName = t.fullName) (hk : wfKey k) :
    ∀ p ∈ upsert reg k f, p.2.fullName = p.1 := by
  intro p hp
  unfold upsert at hp
  by_cases hs : (rlook reg k).isSome
  · rw [if_pos hs] at hp
    rcases mem_rmod reg k f p hp with h | ⟨t, h1, h2⟩
    · exact hreg p h
    · rw [h2, hf, hreg (p.1, t) h1]
  · rw [if_neg hs] at hp
    rcases List.mem_append.mp hp with h | h
    · exact hreg p h
    · have : p = (k, f (tableFromKey k)) := by simpa using h
      rw [this, hf]
      exact hk

theorem flagsMono_refl (t : TableObj) : flagsMono t t :=
  ⟨id, id, id, id⟩

theorem flagsMono_trans {a b c : TableObj} (h1 : flagsMono a b) (h2 : flagsMono b c) :
    flagsMono a c :=
  ⟨fun h => h2.1 (h1.1 h), fun h => h2.2.1 (h1.2.1 h),
   fun h => h2.2.2.1 (h1.2.2.1 h), fun h => h2.2.2.2 (h1.2.2.2 h)⟩

theorem flagsMono_setUsed (t : TableObj) : flagsMono t (setUsed t) :=
  ⟨fun _ => rfl, id, id, id⟩

theorem flagsMono_setCreated (sq : Str) (t : TableObj) : flagsMono t (setCreated sq t) :=
  ⟨id, fun _ => rfl, id, id⟩

theorem flagsMono_setRenamed (sq : Str) (t : TableObj) : flagsMono t (setRenamed sq t) :=
  ⟨id, id, fun _ => rfl, id⟩

theorem flagsMono_setPopulated (sq : Str) (t : TableObj) : flagsMono t (setPopulated sq t) :=
  ⟨id, id, id, fun _ => rfl⟩

theorem fullName_setUsed (t : TableObj) : (setUsed t).fullName = t.fullName := rfl

theorem fullName_setCreated (sq : Str) (t : TableObj) :
    (setCreated sq t).fullName = t.fullName := rfl

theorem fullName_setRenamed (sq : Str) (t : TableObj) :
    (setRenamed sq t).fullName = t.fullName := rfl

theorem fullName_setPopulated (sq : Str) (t : TableObj) :
    (setPopulated sq t).fullName = t.fullName := rfl

theorem procSources_cons (reg : Registry) (x : Str) (xs : List Str) :
    procSources reg (x :: xs) = procSources (upsert reg x setUsed) xs := rfl

theorem procTargets_cons (sq : Str) (reg : Registry) (x : Str) (xs : List Str) :
    procTargets sq reg (x :: xs) = procTargets sq (upsert reg x (setCreated sq)) xs := rfl

theorem procRenames_cons (sq : Str) (reg : Registry) (p : Str × Str)
    (ps : List (Str × Str)) :
    procRenames sq reg (p :: ps) =
      procRenames sq (upsert (upsert reg p.1 setUsed) p.2 (setRenamed sq)) ps := rfl

theorem procPops_cons (sq : Str) (reg : Registry) (x : Str) (xs : List Str) :
    procPops sq reg (x :: xs) = procPops sq (upsert reg x (setPopulated sq)) xs := rfl

theorem procSources_full (l : List Str) (reg : Registry) (k : Str) (t : TableObj)
    (h : rlook reg k = some t) :
    ∃ t', rlook (procSources reg l) k = some t' ∧ flagsMono t t' ∧ t'.sql = t.sql := by
  induction l generalizing reg t with
  | nil => exact ⟨t, h, flagsMono_refl t, rfl⟩
  | cons x xs ih =>
    rw [procSources_cons]
    by_cases hx : x = k
    · subst hx
      have hl : rlook (upsert reg x setUsed) x = some (setUsed t) := by
        rw [rlook_upsert_same, h]
        rfl
      obtain ⟨t', h1, h2, h3⟩ := ih _ _ hl
      exact ⟨t', h1, flagsMono_trans (flagsMono_setUsed t) h2, h3⟩
    · exact ih _ _ ((rlook_upsert_other reg x setUsed k fun hh => hx hh.symm).trans h)

theorem procTargets_full (sq : Str) (l : List Str) (reg : Registry) (k : Str)
    (t : TableObj) (h : rlook reg k = some t) :
    ∃ t', rlook (procTargets sq reg l) k = some t' ∧ flagsMono t t' ∧
      (k ∉ l → t'.sql = t.sql) := by
  induction l generalizing reg t with
  | nil => exact ⟨t, h, flagsMono_refl t, fun _ => rfl⟩
  | cons x xs ih =>
    rw [procTargets_cons]
    by_cases hx : x = k
    · subst hx
      have hl : rlook (upsert reg x (setCreated sq)) x = some (setCreated sq t) := by
        rw [rlook_upsert_same, h]
        rfl
      obtain ⟨t', h1, h2, _⟩ := ih _ _ hl
      refine ⟨t', h1, flagsMono_trans (flagsMono_setCreated sq t) h2, fun hmem => ?_⟩
      exact absurd (List.mem_cons_self x xs) hmem
    · obtain ⟨t', h1, h2, h3⟩ :=
        ih _ _ ((rlook_upsert_other reg x _ k fun hh => hx hh.symm).trans h)
      refine ⟨t', h1, h2, fun hmem => h3 fun hk => hmem (List.mem_cons_of_mem _ hk)⟩

theorem procRenames_full (sq : Str) (l : List (Str × Str)) (reg : Registry) (k : Str)
    (t : TableObj) (h : rlook reg k = some t) :
    ∃ t', rlook (procRenames sq reg l) k = some t' ∧ flagsMono t t' ∧
      (k ∉ l.map Prod.snd → t'.sql = t.sql) := by
  induction l generalizing reg t with
  | nil => exact ⟨t, h, flagsMono_refl t, fun _ => rfl⟩
  | cons p ps ih =>
    rw [procRenames_cons]
    by_cases h2 : p.2 = k
    · subst h2
      have hl : ∃ u, rlook (upsert (upsert reg p.1 setUsed) p.2 (setRenamed sq)) p.2 =
          some (setRenamed sq u) ∧ flagsMono t u := by
        by_cases h1 : p.1 = p.2
        · have : rlook (upsert reg p.1 setUsed) p.2 = some (setUsed t) := by
            rw [← h1, rlook_upsert_same, h1, h]
            rfl
          exact ⟨setUsed t, by rw [rlook_upsert_same, this]; rfl,
            flagsMono_setUsed t⟩
        · have : rlook (upsert reg p.1 setUsed) p.2 = some t := by
            rw [rlook_upsert_other _ _ _ _ fun hh => h1 hh.symm, h]
          exact ⟨t, by rw [rlook_upsert_same, this]; rfl, flagsMono_refl t⟩
      obtain ⟨u, hu, hmu⟩ := hl
      obtain ⟨t', ht1, ht2, _⟩ := ih _ _ hu
      refine ⟨t', ht1,
        flagsMono_trans hmu (flagsMono_trans (flagsMono_setRenamed sq u) ht2),
        fun hmem => ?_⟩
      exact absurd (by simp) hmem
    · have hstep : ∃ u, rlook (upsert (upsert reg p.1 setUsed) p.2 (setRenamed sq)) k =
          some u ∧ flagsMono t u ∧ u.sql = t.sql := by
        rw [rlook_upsert_other _ _ _ _ fun hh => h2 hh.symm]
        by_cases h1 : p.1 = k
        · subst h1
          refine ⟨setUsed t, ?_, flagsMono_setUsed t, rfl⟩
          rw [rlook_upsert_same, h]
          rfl
        · exact ⟨t, (rlook_upsert_other _ _ _ _ fun hh => h1 hh.symm).trans h,
            flagsMono_refl t, rfl⟩
      obtain ⟨u, hu, hmu, hsu⟩ := hstep
      obtain ⟨t', ht1, ht2, ht3⟩ := ih _ _ hu
      refine ⟨t', ht1, flagsMono_trans hmu ht2, fun hmem => ?_⟩
      rw [ht3 fun hk => hmem (by simpa using Or.inr (by simpa using hk)), hsu]

theorem procPops_full (sq : Str) (l : List Str) (reg : Registry) (k : Str)
    (t : TableObj) (h : rlook reg k = some t) :
    ∃ t', rlook (procPops sq reg l) k = some t' ∧ flagsMono t t' ∧
      (k ∉ l → t'.sql = t.sql) := by
  induction l generalizing reg t with
  | nil => exact ⟨t, h, flagsMono_refl t, fun _ => rfl⟩
  | cons x xs ih =>
    rw [procPops_cons]
    by_cases hx : x = k
    · subst hx
      have hl : rlook (upsert reg x (setPopulated sq)) x = some (setPopulated sq t) := by
        rw [rlook_upsert_same, h]
        rfl
      obtain ⟨t', h1, h2, _⟩ := ih _ _ hl
      refine ⟨t', h1, flagsMono_trans (flagsMono_setPopulated sq t) h2, fun hmem => ?_⟩
      exact absurd (List.mem_cons_self x xs) hmem
    · obtain ⟨t', h1, h2, h3⟩ :=
        ih _ _ ((rlook_upsert_other reg x _ k fun hh => hx hh.symm).trans h)
      refine ⟨t', h1, h2, fun hmem => h3 fun hk => hmem (List.mem_cons_of_mem _ hk)⟩

theorem procTargets_sql_stable (sq : Str) (l : List Str) (reg : Registry) (k : Str)
    (t : TableObj) (h : rlook reg k = some t) (hs : t.sql = sq) :
    ∃ t', rlook (procTargets sq reg l) k = some t' ∧ t'.sql = sq := by
  induction l generalizing reg t with
  | nil => exact ⟨t, h, hs⟩
  | cons x xs ih =>
    rw [procTargets_cons]
    by_cases hx : x = k
    · subst hx
      refine ih _ (setCreated sq t) ?_ rfl
      rw [rlook_upsert_same, h]
      rfl
    · exact ih _ _ ((rlook_upsert_other reg x _ k fun hh => hx hh.symm).trans h) hs

theorem procRenames_sql_stable (sq : Str) (l : List (Str × Str)) (reg : Registry)
    (k : Str) (t : TableObj) (h : rlook reg k = some t) (hs : t.sql = sq) :
    ∃ t', rlook (procRenames sq reg l) k = some t' ∧ t'.sql = sq := by
  induction l generalizing reg t with
  | nil => exact ⟨t, h, hs⟩
  | cons p ps ih =>
    rw [procRenames_cons]
    by_cases h2 : p.2 = k
    · subst h2
      obtain ⟨u, hu⟩ : ∃ u, rlook (upsert reg p.1 setUsed) p.2 = some u := by
        by_cases h1 : p.1 = p.2
        · exact ⟨setUsed t, by rw [← h1, rlook_upsert_same, h1, h]; rfl⟩
        · exact ⟨t, by rw [rlook_upsert_other _ _ _ _ fun hh => h1 hh.symm, h]⟩
      refine ih _ (setRenamed sq u) ?_ rfl
      rw [rlook_upsert_same, hu]
      rfl
    · by_cases h1 : p.1 = k
      · subst h1
        refine ih _ (setUsed t) ?_ hs
        rw [rlook_upsert_other _ _ _ _ fun hh => h2 hh.symm, rlook_upsert_same, h]
        rfl
      · refine ih _ t ?_ hs
        rw [rlook_upsert_other _ _ _ _ fun hh => h2 hh.symm,
          rlook_upsert_other _ _ _ _ fun hh => h1 hh.symm, h]

theorem procPops_sql_stable (sq : Str) (l : List Str) (reg : Registry) (k : Str)
    (t : TableObj) (h : rlook reg k = some t) (hs : t.sql = sq) :
    ∃ t', rlook (procPops sq reg l) k = some t' ∧ t'.sql = sq := by
  induction l generalizing reg t with
  | nil => exact ⟨t, h, hs⟩
  | cons x xs ih =>
    rw [procPops_cons]
    by_cases hx : x = k
    · subst hx
      refine ih _ (setPopulated sq t) ?_ rfl
      rw [rlook_upsert_same, h]
      rfl
    · exact ih _ _ ((rlook_upsert_other reg x _ k fun hh => hx hh.symm).trans h) hs

theorem procTargets_mem (sq : Str) (l : List Str) (reg : Registry) (k : Str)
    (hk : k ∈ l) :
    ∃ t', rlook (procTargets sq reg l) k = some t' ∧ t'.sql = sq := by
  induction l generalizing reg with
  | nil => cases hk
  | cons x xs ih =>
    rw [procTargets_cons]
    by_cases hx : x = k
    · subst hx
      exact procTargets_sql_stable sq xs _ x
        (setCreated sq ((rlook reg x).getD (tableFromKey x)))
        (rlook_upsert_same reg x _) rfl
    · rcases List.mem_cons.mp hk with h1 | h1
      · exact absurd h1.symm hx
      · exact ih _ h1

theorem procRenames_snd_mem (sq : Str) (l : List (Str × Str)) (reg : Registry)
    (k : Str) (hk : k ∈ l.map Prod.snd) :
    ∃ t', rlook (procRenames sq reg l) k = some t' ∧ t'.sql = sq := by
  induction l generalizing reg with
  | nil => cases hk
  | cons p ps ih =>
    rw [procRenames_cons]
    by_cases h2 : p.2 = k
    · subst h2
      exact procRenames_sql_stable sq ps _ p.2
        (setRenamed sq ((rlook (upsert reg p.1 setUsed) p.2).getD (tableFromKey p.2)))
        (rlook_upsert_same _ p.2 _) rfl
    · rcases List.mem_cons.mp (by simpa using hk : k ∈ p.2 :: ps.map Prod.snd) with h1 | h1
      · exact absurd h1.symm h2
      · exact ih _ h1

theorem procPops_mem (sq : Str) (l : List Str) (reg : Registry) (k : Str)
    (hk : k ∈ l) :
    ∃ t', rlook (procPops sq reg l) k = some t' ∧ t'.sql = sq := by
  induction l generalizing reg with
  | nil => cases hk
  | cons x xs ih =>
    rw [procPops_cons]
    by_cases hx : x = k
    · subst hx
      exact procPops_sql_stable sq xs _ x
        (setPopulated sq ((rlook reg x).getD (tableFromKey x)))
        (rlook_upsert_same reg x _) rfl
    · rcases List.mem_cons.mp hk with h1 | h1
      · exact absurd h1.symm hx
      · exact ih _ h1

theorem procPops_not_mem (sq : Str) (l : List Str) (reg : Registry) (k : Str)
    (hk : k ∉ l) : rlook (procPops sq reg l) k = rlook reg k := by
  induction l generalizing reg with
  | nil => rfl
  | cons x xs ih =>
    rw [procPops_cons, ih _ fun h => hk (List.mem_cons_of_mem _ h),
      rlook_upsert_other _ _ _ _ fun hh => hk (by rw [hh]; exact List.mem_cons_self x xs)]

/-! ### Character-level lemmas -/

theorem cn_up_low {c : Char} (h : 97 ≤ cn c ∧ cn c ≤ 122) : cn (up c) = cn c - 32 := by
  unfold up
  rw [dif_pos h]
  rfl

theorem up_eq_self {c : Char} (h : ¬(97 ≤ cn c ∧ cn c ≤ 122)) : up c = c := by
  unfold up
  rw [dif_neg]
  exact h

theorem up_idem (c : Char) : up (up c) = up c := by
  by_cases h : 97 ≤ cn c ∧ cn c ≤ 122
  · have h2 : cn (up c) = cn c - 32 := cn_up_low h
    apply up_eq_self
    omega
  · rw [up_eq_self h, up_eq_self h]

theorem isClassC_up (c : Char) : isClassC (up c) = isClassC c := by
  rw [Bool.eq_iff_iff]
  by_cases h : 97 ≤ cn c ∧ cn c ≤ 122
  · have h2 := cn_up_low h
    simp only [isClassC, isLowerC, isUpperC, isDigitC, Bool.or_eq_true, Bool.and_eq_true,
      decide_eq_true_eq, beq_iff_eq]
    omega
  · rw [up_eq_self h]

theorem isClassC_ne_dot {c : Char} (h : isClassC c = true) : c ≠ '.' := by
  intro hc
  rw [hc] at h
  exact absurd h (by decide)

/-! ### Key well-formedness -/

theorem splitCh_no_sep (sep : Char) (b : Str) (hb : ∀ c ∈ b, c ≠ sep) :
    splitCh sep b = [b] := by
  induction b with
  | nil => rfl
  | cons c cs ih =>
    rw [splitCh]
    simp only [if_neg (hb c (List.mem_cons_self c cs)),
      ih fun d hd => hb d (List.mem_cons_of_mem _ hd)]
    rfl

theorem splitCh_append (sep : Char) (a b : Str) (ha : ∀ c ∈ a, c ≠ sep) :
    splitCh sep (a ++ sep :: b) = a :: splitCh sep b := by
  induction a with
  | nil => simp [splitCh]
  | cons c cs ih =>
    rw [List.cons_append, splitCh]
    simp only [if_neg (ha c (List.mem_cons_self c cs)),
      ih fun d hd => ha d (List.mem_cons_of_mem _ hd)]
    rfl

theorem wfKey_parts (a b : Str) (ha : ∀ c ∈ a, c ≠ '.') (hb : ∀ c ∈ b, c ≠ '.') :
    wfKey (a ++ '.' :: b) := by
  unfold wfKey tableFromKey splitDot
  rw [splitCh_append '.' a b ha, splitCh_no_sep '.' b hb]
  rfl

theorem grabGrp_classy (s g r : Str) (h : grabGrp s = some (g, r)) :
    ∀ c ∈ g, isClassC c = true := by
  unfold grabGrp at h
  split at h
  · cases h
  · injection h with h'
    injection h' with h1 h2
    intro c hc
    rw [← h1] at hc
    obtain ⟨d, hd, rfl⟩ := List.mem_map.mp hc
    rw [isClassC_up]
    exact List.mem_takeWhile_imp hd

theorem tail2_classy (s a b : Str) (r : Str) (h : tail2 s = some ((a, b), r)) :
    (∀ c ∈ a, isClassC c = true) ∧ ∀ c ∈ b, isClassC c = true := by
  simp only [tail2, bind, Option.bind] at h
  split at h
  · cases h
  · dsimp only at h
    split at h
    · cases h
    · next p hg1 =>
      obtain ⟨a1, s2⟩ := p
      dsimp only at h
      split at h
      · cases h
      · dsimp only at h
        split at h
        · cases h
        · next p2 hg2 =>
          obtain ⟨b1, s4⟩ := p2
          dsimp only at h
          injection h with h'
          injection h' with hab hr
          injection hab with hae hbe
          subst hae
          subst hbe
          exact ⟨grabGrp_classy _ _ _ hg1, grabGrp_classy _ _ _ hg2⟩

theorem mFrom_classy (s a b r : Str) (h : mFrom s = some ((a, b), r)) :
    (∀ c ∈ a, isClassC c = true) ∧ ∀ c ∈ b, isClassC c = true := by
  simp only [mFrom, bind, Option.bind] at h
  split at h
  · cases h
  exact tail2_classy _ _ _ _ h

theorem mJoin_classy (s a b r : Str) (h : mJoin s = some ((a, b), r)) :
    (∀ c ∈ a, isClassC c = true) ∧ ∀ c ∈ b, isClassC c = true := by
  simp only [mJoin, bind, Option.bind] at h
  split at h
  · cases h
  exact tail2_classy _ _ _ _ h

theorem mCreateTable_classy (s a b r : Str) (h : mCreateTable s = some ((a, b), r)) :
    (∀ c ∈ a, isClassC c = true) ∧ ∀ c ∈ b, isClassC c = true := by
  simp only [mCreateTable, bind, Option.bind] at h
  split at h
  · cases h
  dsimp only at h
  split at h
  · cases h
  dsimp only at h
  split at h
  · cases h
  exact tail2_classy _ _ _ _ h

theorem mCreateHadoopTable_classy (s a b r : Str)
    (h : mCreateHadoopTable s = some ((a, b), r)) :
    (∀ c ∈ a, isClassC c = true) ∧ ∀ c ∈ b, isClassC c = true := by
  simp only [mCreateHadoopTable, bind, Option.bind] at h
  split at h
  · cases h
  dsimp only at h
  split at h
  · cases h
  dsimp only at h
  split at h
  · cases h
  dsimp only at h
  split at h
  · cases h
  dsimp only at h
  split at h
  · cases h
  exact tail2_classy _ _ _ _ h

theorem mIntoTable_classy (s a b r : Str) (h : mIntoTable s = some ((a, b), r)) :
    (∀ c ∈ a, isClassC c = true) ∧ ∀ c ∈ b, isClassC c = true := by
  simp only [mIntoTable, bind, Option.bind] at h
  split at h
  · cases h
  dsimp only at h
  split at h
  · cases h
  dsimp only at h
  split at h
  · cases h
  exact tail2_classy _ _ _ _ h

theorem mInsertInto_classy (s a b r : Str) (h : mInsertInto s = some ((a, b), r)) :
    (∀ c ∈ a, isClassC c = true) ∧ ∀ c ∈ b, isClassC c = true := by
  simp only [mInsertInto, bind, Option.bind] at h
  split at h
  · cases h
  dsimp only at h
  split at h
  · cases h
  dsimp only at h
  split at h
  · cases h
  exact tail2_classy _ _ _ _ h

theorem mRename_classy (s a b c r : Str) (h : mRename s = some ((a, b, c), r)) :
    (∀ d ∈ a, isClassC d = true) ∧ (∀ d ∈ b, isClassC d = true) ∧
      ∀ d ∈ c, isClassC d = true := by
  simp only [mRename, bind, Option.bind] at h
  split at h
  · cases h
  dsimp only at h
  split at h
  · cases h
  dsimp only at h
  split at h
  · cases h
  dsimp only at h
  split at h
  · cases h
  next p htail =>
  obtain ⟨⟨a1, b1⟩, s3⟩ := p
  dsimp only at h
  split at h
  · cases h
  dsimp only at h
  split at h
  · cases h
  dsimp only at h
  split at h
  · cases h
  dsimp only at h
  split at h
  · cases h
  next p2 hg =>
  obtain ⟨c1, s4⟩ := p2
  dsimp only at h
  injection h with h'
  injection h' with habc hr
  injection habc with hae hbc
  injection hbc with hbe hce
  subst hae
  subst hbe
  subst hce
  obtain ⟨hca, hcb⟩ := tail2_classy _ _ _ _ htail
  exact ⟨hca, hcb, grabGrp_classy _ _ _ hg⟩

theorem scanP_mem {α : Type} (m : Str → Option (α × Str)) (P : α → Prop)
    (hm : ∀ s x r, m s = some (x, r) → P x) :
    ∀ fu s x, x ∈ scanP m fu s → P x := by
  intro fu
  induction fu with
  | zero => intro s x hx; cases hx
  | succ n ih =>
    intro s x hx
    cases s with
    | nil => cases hx
    | cons ch cs =>
      rw [scanP] at hx
      split at hx
      · next p hmc =>
        rcases List.mem_cons.mp hx with h1 | h1
        · subst h1
          exact hm _ _ _ hmc
        · exact ih _ _ h1
      · exact ih _ _ hx

theorem dedupL_subset {α : Type} [DecidableEq α] (l : List α) :
    ∀ x ∈ dedupL l, x ∈ l := by
  unfold dedupL
  suffices h : ∀ acc x, x ∈ l.foldl (fun acc t => if t ∈ acc then acc else acc ++ [t]) acc →
      x ∈ acc ∨ x ∈ l by
    intro x hx
    rcases h [] x hx with h1 | h1
    · cases h1
    · exact h1
  induction l with
  | nil => exact fun acc x hx => Or.inl hx
  | cons y ys ih =>
    intro acc x hx
    rw [List.foldl_cons] at hx
    rcases ih _ x hx with h1 | h1
    · by_cases hy : y ∈ acc
      · rw [if_pos hy] at h1
        exact Or.inl h1
      · rw [if_neg hy] at h1
        rcases List.mem_append.mp h1 with h2 | h2
        · exact Or.inl h2
        · exact Or.inr (by simp [List.mem_singleton.mp h2])
    · exact Or.inr (List.mem_cons_of_mem _ h1)

theorem wfKey_joinName {p : Str × Str}
    (hp : (∀ c ∈ p.1, isClassC c = true) ∧ ∀ c ∈ p.2, isClassC c = true) :
    wfKey (joinName p) :=
  wfKey_parts p.1 p.2 (fun c hc => isClassC_ne_dot (hp.1 c hc))
    fun c hc => isClassC_ne_dot (hp.2 c hc)

theorem wfKey_idSourceTables (s : Str) : ∀ k ∈ idSourceTables s, wfKey k := by
  intro k hk
  obtain ⟨p, hp, rfl⟩ := List.mem_map.mp (dedupL_subset _ k hk)
  rcases List.mem_append.mp hp with h1 | h1
  · exact wfKey_joinName (scanP_mem mFrom (fun q => (∀ c ∈ q.1, isClassC c = true) ∧ ∀ c ∈ q.2, isClassC c = true)
      (fun s x r h => by obtain ⟨a, b⟩ := x; exact mFrom_classy s a b r h) _ _ p h1)
  · exact wfKey_joinName (scanP_mem mJoin (fun q => (∀ c ∈ q.1, isClassC c = true) ∧ ∀ c ∈ q.2, isClassC c = true)
      (fun s x r h => by obtain ⟨a, b⟩ := x; exact mJoin_classy s a b r h) _ _ p h1)

theorem wfKey_idTargetTables (s : Str) : ∀ k ∈ idTargetTables s, wfKey k := by
  intro k hk
  obtain ⟨p, hp, rfl⟩ := List.mem_map.mp (dedupL_subset _ k hk)
  rcases List.mem_append.mp hp with h1 | h1
  · exact wfKey_joinName (scanP_mem mCreateTable (fun q => (∀ c ∈ q.1, isClassC c = true) ∧ ∀ c ∈ q.2, isClassC c = true)
      (fun s x r h => by obtain ⟨a, b⟩ := x; exact mCreateTable_classy s a b r h) _ _ p h1)
  · exact wfKey_joinName (scanP_mem mCreateHadoopTable (fun q => (∀ c ∈ q.1, isClassC c = true) ∧ ∀ c ∈ q.2, isClassC c = true)
      (fun s x r h => by obtain ⟨a, b⟩ := x; exact mCreateHadoopTable_classy s a b r h) _ _ p h1)

theorem wfKey_idPopulatedTables (s : Str) : ∀ k ∈ idPopulatedTables s, wfKey k := by
  intro k hk
  obtain ⟨p, hp, rfl⟩ := List.mem_map.mp (dedupL_subset _ k hk)
  rcases List.mem_append.mp hp with h1 | h1
  · exact wfKey_joinName (scanP_mem mIntoTable (fun q => (∀ c ∈ q.1, isClassC c = true) ∧ ∀ c ∈ q.2, isClassC c = true)
      (fun s x r h => by obtain ⟨a, b⟩ := x; exact mIntoTable_classy s a b r h) _ _ p h1)
  · exact wfKey_joinName (scanP_mem mInsertInto (fun q => (∀ c ∈ q.1, isClassC c = true) ∧ ∀ c ∈ q.2, isClassC c = true)
      (fun s x r h => by obtain ⟨a, b⟩ := x; exact mInsertInto_classy s a b r h) _ _ p h1)

theorem wfKey_idRenamedTables (s : Str) :
    ∀ p ∈ idRenamedTables s, wfKey p.1 ∧ wfKey p.2 := by
  intro p hp
  obtain ⟨t, ht, rfl⟩ := List.mem_map.mp (dedupL_subset _ p hp)
  have hc : (∀ d ∈ t.1, isClassC d = true) ∧ (∀ d ∈ t.2.1, isClassC d = true) ∧
      ∀ d ∈ t.2.2, isClassC d = true :=
    scanP_mem mRename
      (fun q => (∀ d ∈ q.1, isClassC d = true) ∧ (∀ d ∈ q.2.1, isClassC d = true) ∧
        ∀ d ∈ q.2.2, isClassC d = true)
      (fun s x r h => by obtain ⟨a, b, c⟩ := x; exact mRename_classy s a b c r h) _ _ t ht
  constructor
  · exact wfKey_parts t.1 t.2.1 (fun c hcm => isClassC_ne_dot (hc.1 c hcm))
      fun c hcm => isClassC_ne_dot (hc.2.1 c hcm)
  · exact wfKey_parts t.1 t.2.2 (fun c hcm => isClassC_ne_dot (hc.1 c hcm))
      fun c hcm => isClassC_ne_dot (hc.2.2 c hcm)

theorem wfStmt_stmtInfo (st : Str) : wfStmt (stmtInfo st) :=
  ⟨wfKey_idSourceTables st, wfKey_idTargetTables st, wfKey_idRenamedTables st,
    wfKey_idPopulatedTables st⟩

theorem procSources_nodup (l : List Str) :
    ∀ reg : Registry, (reg.map Prod.fst).Nodup →
      ((procSources reg l).map Prod.fst).Nodup := by
  induction l with
  | nil => exact fun reg h => h
  | cons x xs ih =>
    intro reg h
    rw [procSources_cons]
    exact ih _ (nodup_upsert _ _ _ h)

theorem procTargets_nodup (sq : Str) (l : List Str) :
    ∀ reg : Registry, (reg.map Prod.fst).Nodup →
      ((procTargets sq reg l).map Prod.fst).Nodup := by
  induction l with
  | nil => exact fun reg h => h
  | cons x xs ih =>
    intro reg h
    rw [procTargets_cons]
    exact ih _ (nodup_upsert _ _ _ h)

theorem procRenames_nodup (sq : Str) (l : List (Str × Str)) :
    ∀ reg : Registry, (reg.map Prod.fst).Nodup →
      ((procRenames sq reg l).map Prod.fst).Nodup := by
  induction l with
  | nil => exact fun reg h => h
  | cons p ps ih =>
    intro reg h
    rw [procRenames_cons]
    exact ih _ (nodup_upsert _ _ _ (nodup_upsert _ _ _ h))

theorem procPops_nodup (sq : Str) (l : List Str) :
    ∀ reg : Registry, (reg.map Prod.fst).Nodup →
      ((procPops sq reg l).map Prod.fst).Nodup := by
  induction l with
  | nil => exact fun reg h => h
  | cons x xs ih =>
    intro reg h
    rw [procPops_cons]
    exact ih _ (nodup_upsert _ _ _ h)

theorem procSources_wfE (l : List Str) :
    ∀ reg : Registry, (∀ p ∈ reg, p.2.fullName = p.1) → (∀ k ∈ l, wfKey k) →
      ∀ p ∈ procSources reg l, p.2.fullName = p.1 := by
  induction l with
  | nil => exact fun reg h _ => h
  | cons x xs ih =>
    intro reg h hl
    rw [procSources_cons]
    exact ih _ (wf_upsert reg x setUsed h fullName_setUsed (hl x (List.mem_cons_self x xs)))
      fun k hk => hl k (List.mem_cons_of_mem _ hk)

theorem procTargets_wfE (sq : Str) (l : List Str) :
    ∀ reg : Registry, (∀ p ∈ reg, p.2.fullName = p.1) → (∀ k ∈ l, wfKey k) →
      ∀ p ∈ procTargets sq reg l, p.2.fullName = p.1 := by
  induction l with
  | nil => exact fun reg h _ => h
  | cons x xs ih =>
    intro reg h hl
    rw [procTargets_cons]
    exact ih _ (wf_upsert reg x (setCreated sq) h (fullName_setCreated sq)
      (hl x (List.mem_cons_self x xs))) fun k hk => hl k (List.mem_cons_of_mem _ hk)

theorem procRenames_wfE (sq : Str) (l : List (Str × Str)) :
    ∀ reg : Registry, (∀ p ∈ reg, p.2.fullName = p.1) →
      (∀ q ∈ l, wfKey q.1 ∧ wfKey q.2) →
      ∀ p ∈ procRenames sq reg l, p.2.fullName = p.1 := by
  induction l with
  | nil => exact fun reg h _ => h
  | cons q qs ih =>
    intro reg h hl
    rw [procRenames_cons]
    refine ih _ ?_ fun x hx => hl x (List.mem_cons_of_mem _ hx)
    exact wf_upsert _ q.2 (setRenamed sq)
      (wf_upsert reg q.1 setUsed h fullName_setUsed (hl q (List.mem_cons_self q qs)).1)
      (fullName_setRenamed sq) (hl q (List.mem_cons_self q qs)).2

theorem procPops_wfE (sq : Str) (l : List Str) :
    ∀ reg : Registry, (∀ p ∈ reg, p.2.fullName = p.1) → (∀ k ∈ l, wfKey k) →
      ∀ p ∈ procPops sq reg l, p.2.fullName = p.1 := by
  induction l with
  | nil => exact fun reg h _ => h
  | cons x xs ih =>
    intro reg h hl
    rw [procPops_cons]
    exact ih _ (wf_upsert reg x (setPopulated sq) h (fullName_setPopulated sq)
      (hl x (List.mem_cons_self x xs))) fun k hk => hl k (List.mem_cons_of_mem _ hk)

theorem processStmt_wf (reg : Registry) (si : StmtInfo) (h : RegistryWf reg)
    (hsi : wfStmt si) : RegistryWf (processStmt reg si) := by
  obtain ⟨hn, hw⟩ := h
  obtain ⟨h1, h2, h3, h4⟩ := hsi
  unfold processStmt
  constructor
  · exact procPops_nodup _ _ _ (procRenames_nodup _ _ _ (procTargets_nodup _ _ _
      (procSources_nodup _ _ hn)))
  · exact procPops_wfE _ _ _ (procRenames_wfE _ _ _ (procTargets_wfE _ _ _
      (procSources_wfE _ _ hw h1) h2) h3) h4

theorem analyzeReg_wf (s : Str) : RegistryWf (analyzeReg s) := by
  unfold analyzeReg
  have hfold : ∀ (sis : List StmtInfo) (reg : Registry), RegistryWf reg →
      (∀ si ∈ sis, wfStmt si) → RegistryWf (sis.foldl processStmt reg) := by
    intro sis
    induction sis with
    | nil => exact fun reg h _ => h
    | cons si rest ih =>
      intro reg h hall
      rw [List.foldl_cons]
      exact ih _ (processStmt_wf reg si h (hall si (List.mem_cons_self si rest)))
        fun x hx => hall x (List.mem_cons_of_mem _ hx)
  refine hfold _ [] ⟨List.nodup_nil, by simp⟩ fun si hsi => ?_
  obtain ⟨st, _, rfl⟩ := List.mem_map.mp hsi
  exact wfStmt_stmtInfo st

/-- C6: the registry invariants of `TableExtractor.analyze`.  (1) For every
input text the final registry has pairwise-distinct keys and every stored
table's `full_name` equals its key — at most one `Table` instance per
`full_name`.  (2) Processing one more statement updates entries in place:
an existing entry survives, its `used`/`created`/`renamed`/`populated`
flags are never cleared, and its `sql` is untouched unless the statement
"defines" the table (CREATE target / RENAME new name / INSERT-LOAD
target).  (3) Whenever a statement defines a table, the stored `sql`
afterwards is that statement's text — so `sql` always holds the text of
the most recent defining statement. -/
theorem analyze_registry_invariants :
    (∀ s : Str, RegistryWf (analyzeReg s)) ∧
    (∀ (cash : Registry) (si : StmtInfo) (k : Str) (t : TableObj),
        rlook cash k = some t →
        ∃ t', rlook (processStmt cash si) k = some t' ∧ flagsMono t t' ∧
          (¬definedIn si k → t'.sql = t.sql)) ∧
    (∀ (cash : Registry) (si : StmtInfo) (k : Str), definedIn si k →
        ∃ t', rlook (processStmt cash si) k = some t' ∧ t'.sql = si.sql) := by
  refine ⟨analyzeReg_wf, ?_, ?_⟩
  · intro cash si k t h
    obtain ⟨t1, h1, m1, s1⟩ := procSources_full si.sources cash k t h
    obtain ⟨t2, h2, m2, s2⟩ := procTargets_full si.sql si.targets _ k t1 h1
    obtain ⟨t3, h3, m3, s3⟩ := procRenames_full si.sql si.renames _ k t2 h2
    obtain ⟨t4, h4, m4, s4⟩ := procPops_full si.sql si.pops _ k t3 h3
    refine ⟨t4, h4, flagsMono_trans m1 (flagsMono_trans m2 (flagsMono_trans m3 m4)), ?_⟩
    intro hnd
    unfold definedIn at hnd
    push_neg at hnd
    obtain ⟨nd1, nd2, nd3⟩ := hnd
    rw [s4 nd3, s3 nd2, s2 nd1, s1]
  · intro cash si k hd
    rcases hd with ht | hr | hp
    · obtain ⟨t1, h1, s1⟩ :=
        procTargets_mem si.sql si.targets (procSources cash si.sources) k ht
      obtain ⟨t2, h2, s2⟩ := procRenames_sql_stable si.sql si.renames _ k t1 h1 s1
      obtain ⟨t3, h3, s3⟩ := procPops_sql_stable si.sql si.pops _ k t2 h2 s2
      exact ⟨t3, h3, s3⟩
    · obtain ⟨t1, h1, s1⟩ := procRenames_snd_mem si.sql si.renames
        (procTargets si.sql (procSources cash si.sources) si.targets) k hr
      obtain ⟨t2, h2, s2⟩ := procPops_sql_stable si.sql si.pops _ k t1 h1 s1
      exact ⟨t2, h2, s2⟩
    · exact procPops_mem si.sql si.pops _ k hp

theorem analyze_registry_invariants_witness :
    (∃ t', rlook (processStmt
          [("A.B".data, TableObj.mk "A".data "B".data [] true false false false none)]
          ⟨[], [], [], [], "s".data⟩) "A.B".data = some t' ∧
        flagsMono (TableObj.mk "A".data "B".data [] true false false false none) t' ∧
        (¬definedIn ⟨[], [], [], [], "s".data⟩ "A.B".data →
          t'.sql = (TableObj.mk "A".data "B".data [] true false false false none).sql)) ∧
    (∃ t', rlook (processStmt [] ⟨[], ["C.D".data], [], [], "s".data⟩) "C.D".data =
        some t' ∧ t'.sql = "s".data) :=
  ⟨analyze_registry_invariants.2.1 _ _ _ _ rfl,
   analyze_registry_invariants.2.2 [] ⟨[], ["C.D".data], [], [], "s".data⟩ "C.D".data
     (Or.inl (List.mem_cons_self _ _))⟩

/-! ### Case-equivalence infrastructure (claim C7) -/

theorem cn_inj {a b : Char} (h : cn a = cn b) : a = b := by
  apply Char.eq_of_val_eq
  apply UInt32.eq_of_val_eq
  apply Fin.eq_of_val_eq
  simpa [cn, Char.toNat, UInt32.toNat] using h

theorem isWsC_up (c : Char) : isWsC (up c) = isWsC c := by
  rw [Bool.eq_iff_iff]
  by_cases h : 97 ≤ cn c ∧ cn c ≤ 122
  · have h2 := cn_up_low h
    simp only [isWsC, Bool.or_eq_true, beq_iff_eq]
    omega
  · rw [up_eq_self h]

theorem isDash_up (c : Char) : isDash (up c) = isDash c := by
  rw [Bool.eq_iff_iff]
  by_cases h : 97 ≤ cn c ∧ cn c ≤ 122
  · have h2 := cn_up_low h
    simp only [isDash, beq_iff_eq]
    omega
  · rw [up_eq_self h]

theorem isSlash_up (c : Char) : isSlash (up c) = isSlash c := by
  rw [Bool.eq_iff_iff]
  by_cases h : 97 ≤ cn c ∧ cn c ≤ 122
  · have h2 := cn_up_low h
    simp only [isSlash, beq_iff_eq]
    omega
  · rw [up_eq_self h]

theorem isStar_up (c : Char) : isStar (up c) = isStar c := by
  rw [Bool.eq_iff_iff]
  by_cases h : 97 ≤ cn c ∧ cn c ≤ 122
  · have h2 := cn_up_low h
    simp only [isStar, beq_iff_eq]
    omega
  · rw [up_eq_self h]

theorem isCr_up (c : Char) : isCr (up c) = isCr c := by
  rw [Bool.eq_iff_iff]
  by_cases h : 97 ≤ cn c ∧ cn c ≤ 122
  · have h2 := cn_up_low h
    simp only [isCr, beq_iff_eq]
    omega
  · rw [up_eq_self h]

theorem isNl_up (c : Char) : isNl (up c) = isNl c := by
  rw [Bool.eq_iff_iff]
  by_cases h : 97 ≤ cn c ∧ cn c ≤ 122
  · have h2 := cn_up_low h
    simp only [isNl, beq_iff_eq]
    omega
  · rw [up_eq_self h]

theorem isLParen_up (c : Char) : isLParen (up c) = isLParen c := by
  rw [Bool.eq_iff_iff]
  by_cases h : 97 ≤ cn c ∧ cn c ≤ 122
  · have h2 := cn_up_low h
    simp only [isLParen, beq_iff_eq]
    omega
  · rw [up_eq_self h]

theorem notRParen_up (c : Char) : notRParen (up c) = notRParen c := by
  rw [Bool.eq_iff_iff]
  by_cases h : 97 ≤ cn c ∧ cn c ≤ 122
  · have h2 := cn_up_low h
    simp only [notRParen, Bool.not_eq_true', beq_eq_false_iff_ne, ne_eq]
    constructor
    · intro hx hc
      exact hx (by omega : cn (up c) = 41)
    · intro hx hc
      exact hx (by omega : cn c = 41)
  · rw [up_eq_self h]

theorem notStarSlash_up (c : Char) : notStarSlash (up c) = notStarSlash c := by
  unfold notStarSlash
  rw [isStar_up, isSlash_up]

theorem eq_sep_up {sep : Char} (hsep : cn sep < 65) (c : Char) :
    up c = sep ↔ c = sep := by
  constructor
  · intro h
    by_cases hl : 97 ≤ cn c ∧ cn c ≤ 122
    · have h2 := cn_up_low hl
      have : cn (up c) = cn sep := by rw [h]
      omega
    · rw [up_eq_self hl] at h
      exact h
  · intro h
    subst h
    apply up_eq_self
    omega

theorem eq_sep_transport {sep : Char} (hsep : cn sep < 65) {a b : Char}
    (h : up a = up b) : (a = sep) ↔ (b = sep) := by
  rw [← eq_sep_up hsep a, ← eq_sep_up hsep b, h]

/-- Transport a `up`-invariant boolean character test along `up a = up b`. -/
theorem test_transport {p : Char → Bool} (hp : ∀ c, p (up c) = p c) {a b : Char}
    (h : up a = up b) : p a = p b := by
  rw [← hp a, h, hp b]

theorem rel_length {u v : Str} (h : u.map up = v.map up) : u.length = v.length := by
  have := congrArg List.length h
  simpa using this

theorem rel_cons {a b : Char} {u v : Str} (h : (a :: u).map up = (b :: v).map up) :
    up a = up b ∧ u.map up = v.map up := by
  rw [List.map_cons, List.map_cons] at h
  exact ⟨List.head_eq_of_cons_eq h, List.tail_eq_of_cons_eq h⟩

theorem takeWhile_rel {p : Char → Bool} (hp : ∀ c, p (up c) = p c) :
    ∀ {u v : Str}, u.map up = v.map up →
      (u.takeWhile p).map up = (v.takeWhile p).map up := by
  intro u
  induction u with
  | nil => intro v h; rw [(List.map_eq_nil_iff.mp h.symm : v = [])]
  | cons a u' ih =>
    intro v h
    cases v with
    | nil => cases h
    | cons b v' =>
      obtain ⟨h1, h2⟩ := rel_cons h
      rw [List.takeWhile_cons, List.takeWhile_cons, test_transport hp h1]
      by_cases hb : p b
      · rw [if_pos hb, if_pos hb, List.map_cons, List.map_cons, h1, ih h2]
      · rw [if_neg hb, if_neg hb]

theorem dropWhile_rel {p : Char → Bool} (hp : ∀ c, p (up c) = p c) :
    ∀ {u v : Str}, u.map up = v.map up →
      (u.dropWhile p).map up = (v.dropWhile p).map up := by
  intro u
  induction u with
  | nil => intro v h; rw [(List.map_eq_nil_iff.mp h.symm : v = [])]
  | cons a u' ih =>
    intro v h
    cases v with
    | nil => cases h
    | cons b v' =>
      obtain ⟨h1, h2⟩ := rel_cons h
      rw [List.dropWhile_cons, List.dropWhile_cons, test_transport hp h1]
      by_cases hb : p b
      · rw [if_pos hb, if_pos hb]
        exact ih h2
      · rw [if_neg hb, if_neg hb]
        exact h

theorem take_rel (k : Nat) : ∀ {u v : Str}, u.map up = v.map up →
    (u.take k).map up = (v.take k).map up := by
  intro u v h
  rw [List.map_take, List.map_take, h]

theorem drop_rel (k : Nat) : ∀ {u v : Str}, u.map up = v.map up →
    (u.drop k).map up = (v.drop k).map up := by
  intro u v h
  rw [List.map_drop, List.map_drop, h]

theorem all_rel {p : Char → Bool} (hp : ∀ c, p (up c) = p c) :
    ∀ {u v : Str}, u.map up = v.map up → u.all p = v.all p := by
  intro u
  induction u with
  | nil => intro v h; rw [(List.map_eq_nil_iff.mp h.symm : v = [])]
  | cons a u' ih =>
    intro v h
    cases v with
    | nil => cases h
    | cons b v' =>
      obtain ⟨h1, h2⟩ := rel_cons h
      rw [List.all_cons, List.all_cons, test_transport hp h1, ih h2]

theorem sl_headD_rel {r r' : List Str}
    (h : r.map (List.map up) = r'.map (List.map up)) :
    (r.headD []).map up = (r'.headD []).map up := by
  cases r with
  | nil =>
    cases r' with
    | nil => rfl
    | cons x xs => cases h
  | cons x xs =>
    cases r' with
    | nil => cases h
    | cons y ys =>
      simp only [List.map_cons] at h
      exact List.head_eq_of_cons_eq h

theorem sl_tail_rel {r r' : List Str}
    (h : r.map (List.map up) = r'.map (List.map up)) :
    r.tail.map (List.map up) = r'.tail.map (List.map up) := by
  cases r with
  | nil =>
    cases r' with
    | nil => rfl
    | cons x xs => cases h
  | cons x xs =>
    cases r' with
    | nil => cases h
    | cons y ys =>
      simp only [List.map_cons] at h
      exact List.tail_eq_of_cons_eq h

theorem splitCh_rel {sep : Char} (hsep : cn sep < 65) :
    ∀ {u v : Str}, u.map up = v.map up →
      (splitCh sep u).map (List.map up) = (splitCh sep v).map (List.map up) := by
  intro u
  induction u with
  | nil => intro v h; rw [(List.map_eq_nil_iff.mp h.symm : v = [])]
  | cons a u' ih =>
    intro v h
    cases v with
    | nil => cases h
    | cons b v' =>
      obtain ⟨h1, h2⟩ := rel_cons h
      have hr := ih h2
      simp only [splitCh]
      by_cases ha : a = sep
      · rw [if_pos ha, if_pos ((eq_sep_transport hsep h1).mp ha), List.map_cons,
          List.map_cons, hr]
      · rw [if_neg ha, if_neg fun hb => ha ((eq_sep_transport hsep h1).mpr hb)]
        simp only [List.map_cons]
        rw [h1, sl_headD_rel hr, sl_tail_rel hr]

theorem joinCh_rel (sep : Char) :
    ∀ {ls1 ls2 : List Str}, ls1.map (List.map up) = ls2.map (List.map up) →
      (joinCh sep ls1).map up = (joinCh sep ls2).map up := by
  intro ls1
  induction ls1 with
  | nil => intro ls2 h; rw [(List.map_eq_nil_iff.mp h.symm : ls2 = [])]
  | cons l ls ih =>
    intro ls2 h
    cases ls2 with
    | nil => cases h
    | cons l2 ls2' =>
      simp only [List.map_cons] at h
      have h1 := List.head_eq_of_cons_eq h
      have h2 := List.tail_eq_of_cons_eq h
      cases ls with
      | nil =>
        cases ls2' with
        | nil => simpa [joinCh] using h1
        | cons => cases h2
      | cons m ms =>
        cases ls2' with
        | nil => cases h2
        | cons m2 ms2 =>
          simp only [joinCh, List.map_append, List.map_cons]
          rw [h1, ih h2]

theorem cutLine_rel : ∀ {u v : Str}, u.map up = v.map up →
    (cutLine u).map up = (cutLine v).map up := by
  intro u
  induction u with
  | nil => intro v h; rw [(List.map_eq_nil_iff.mp h.symm : v = [])]
  | cons a u' ih =>
    intro v h
    cases v with
    | nil => cases h
    | cons b v' =>
      obtain ⟨h1, h2⟩ := rel_cons h
      have hsd : startsDash u' = startsDash v' := by
        cases u' with
        | nil =>
          cases v' with
          | nil => rfl
          | cons => cases h2
        | cons x xs =>
          cases v' with
          | nil => cases h2
          | cons y ys =>
            obtain ⟨hx, _⟩ := rel_cons h2
            exact test_transport isDash_up hx
      rw [cutLine, cutLine, test_transport isDash_up h1, hsd]
      by_cases hb : isDash b && startsDash v'
      · rw [if_pos hb, if_pos hb]
      · rw [if_neg hb, if_neg hb, List.map_cons, List.map_cons, h1, ih h2]

theorem mlcClose_rel : ∀ {u v : Str}, u.map up = v.map up →
    ORel (mlcClose u) (mlcClose v) := by
  intro u v h
  cases u with
  | nil =>
    cases v with
    | nil => trivial
    | cons => cases h
  | cons e1 r1 =>
    cases v with
    | nil => cases h
    | cons f1 s1 =>
      obtain ⟨he1, hr1⟩ := rel_cons h
      cases r1 with
      | nil =>
        cases s1 with
        | nil => trivial
        | cons => cases hr1
      | cons e2 r2 =>
        cases s1 with
        | nil => cases hr1
        | cons f2 s2 =>
          obtain ⟨he2, hr2⟩ := rel_cons hr1
          rw [mlcClose, mlcClose, test_transport isStar_up he1,
            test_transport isSlash_up he2]
          by_cases hc : isStar f1 && isSlash f2
          · rw [if_pos hc, if_pos hc]
            exact hr2
          · rw [if_neg hc, if_neg hc]
            trivial

theorem mMLC_rel : ∀ {u v : Str}, u.map up = v.map up → ORel (mMLC u) (mMLC v) := by
  intro u v h
  cases u with
  | nil =>
    cases v with
    | nil => trivial
    | cons => cases h
  | cons c1 u1 =>
    cases v with
    | nil => cases h
    | cons d1 v1 =>
      obtain ⟨h1, h2⟩ := rel_cons h
      cases u1 with
      | nil =>
        cases v1 with
        | nil => trivial
        | cons => cases h2
      | cons c2 u2 =>
        cases v1 with
        | nil => cases h2
        | cons d2 v2 =>
          obtain ⟨h3, h4⟩ := rel_cons h2
          rw [mMLC, mMLC, test_transport isSlash_up h1, test_transport isStar_up h3]
          by_cases hb : isSlash d1 && isStar d2
          · rw [if_pos hb, if_pos hb]
            exact mlcClose_rel (dropWhile_rel notStarSlash_up h4)
          · rw [if_neg hb, if_neg hb]
            trivial

theorem mlcScan_rel : ∀ (fu : Nat) {u v : Str}, u.map up = v.map up →
    (mlcScan fu u).map up = (mlcScan fu v).map up := by
  intro fu
  induction fu with
  | zero => exact fun h => h
  | succ n ih =>
    intro u v h
    cases u with
    | nil =>
      cases v with
      | nil => rfl
      | cons => cases h
    | cons c cs =>
      cases v with
      | nil => cases h
      | cons d ds =>
        obtain ⟨h1, h2⟩ := rel_cons h
        have hm := mMLC_rel h
        cases hu : mMLC (c :: cs) with
        | some r1 =>
          cases hv : mMLC (d :: ds) with
          | some r2 =>
            rw [hu, hv] at hm
            simp only [mlcScan, hu, hv]
            exact ih hm
          | none =>
            rw [hu, hv] at hm
            exact hm.elim
        | none =>
          cases hv : mMLC (d :: ds) with
          | some r2 =>
            rw [hu, hv] at hm
            exact hm.elim
          | none =>
            simp only [mlcScan, hu, hv, List.map_cons]
            rw [h1, ih h2]

theorem mapF_rel {f : Str → Str}
    (hf : ∀ {x y : Str}, x.map up = y.map up → (f x).map up = (f y).map up) :
    ∀ {ls1 ls2 : List Str}, ls1.map (List.map up) = ls2.map (List.map up) →
      (ls1.map f).map (List.map up) = (ls2.map f).map (List.map up) := by
  intro ls1
  induction ls1 with
  | nil => intro ls2 h; rw [(List.map_eq_nil_iff.mp h.symm : ls2 = [])]
  | cons l ls ih =>
    intro ls2 h
    cases ls2 with
    | nil => cases h
    | cons l2 ls2' =>
      simp only [List.map_cons] at h ⊢
      rw [hf (List.head_eq_of_cons_eq h), ih (List.tail_eq_of_cons_eq h)]

theorem removeComments_rel {u v : Str} (h : u.map up = v.map up) :
    (removeComments u).map up = (removeComments v).map up := by
  simp only [removeComments]
  have hj : (joinCh '\n' ((splitCh '\n' u).map cutLine)).map up =
      (joinCh '\n' ((splitCh '\n' v).map cutLine)).map up :=
    joinCh_rel '\n' (mapF_rel (fun hx => cutLine_rel hx)
      (splitCh_rel (by decide) h))
  rw [rel_length hj]
  exact mlcScan_rel _ hj

theorem rbEnd_rel {u v : Str} (h : u.map up = v.map up) : rbEnd u = rbEnd v := by
  cases u with
  | nil =>
    cases v with
    | nil => rfl
    | cons => cases h
  | cons c cs =>
    cases v with
    | nil => cases h
    | cons d ds =>
      obtain ⟨h1, h2⟩ := rel_cons h
      cases cs with
      | nil =>
        cases ds with
        | nil => simpa [rbEnd] using test_transport isNl_up h1
        | cons => cases h2
      | cons x xs =>
        cases ds with
        | nil => cases h2
        | cons y ys => rfl

theorem rbAtCRLF_rel {u v : Str} (k : Nat) (h : u.map up = v.map up) :
    ORel (rbAtCRLF u k) (rbAtCRLF v k) := by
  unfold rbAtCRLF
  rw [all_rel isWsC_up (take_rel k h)]
  by_cases ha : (v.take k).all isWsC
  · rw [if_pos ha, if_pos ha]
    have hd := drop_rel k h
    cases hu : u.drop k with
    | nil =>
      cases hv : v.drop k with
      | nil => trivial
      | cons => rw [hu, hv] at hd; cases hd
    | cons c1 r1 =>
      cases hv : v.drop k with
      | nil => rw [hu, hv] at hd; cases hd
      | cons d1 s1 =>
        rw [hu, hv] at hd
        obtain ⟨h1, h2⟩ := rel_cons hd
        cases r1 with
        | nil =>
          cases s1 with
          | nil => trivial
          | cons => cases h2
        | cons c2 r2 =>
          cases s1 with
          | nil => cases h2
          | cons d2 s2 =>
            obtain ⟨h3, h4⟩ := rel_cons h2
            dsimp only
            rw [test_transport isCr_up h1, test_transport isNl_up h3, rbEnd_rel h4]
            by_cases hb : isCr d1 && isNl d2 && rbEnd s2
            · rw [if_pos hb, if_pos hb]
              exact h4
            · rw [if_neg hb, if_neg hb]
              trivial
  · rw [if_neg ha, if_neg ha]
    trivial

theorem rbAtLF_rel {u v : Str} (k : Nat) (h : u.map up = v.map up) :
    ORel (rbAtLF u k) (rbAtLF v k) := by
  unfold rbAtLF
  rw [all_rel isWsC_up (take_rel k h)]
  by_cases ha : (v.take k).all isWsC
  · rw [if_pos ha, if_pos ha]
    have hd := drop_rel k h
    cases hu : u.drop k with
    | nil =>
      cases hv : v.drop k with
      | nil => trivial
      | cons => rw [hu, hv] at hd; cases hd
    | cons c1 r1 =>
      cases hv : v.drop k with
      | nil => rw [hu, hv] at hd; cases hd
      | cons d1 s1 =>
        rw [hu, hv] at hd
        obtain ⟨h1, h2⟩ := rel_cons hd
        dsimp only
        rw [test_transport isNl_up h1, rbEnd_rel h2]
        by_cases hb : isNl d1 && rbEnd s1
        · rw [if_pos hb, if_pos hb]
          exact h2
        · rw [if_neg hb, if_neg hb]
          trivial
  · rw [if_neg ha, if_neg ha]
    trivial

theorem rbFind_rel {u v : Str} {f : Str → Nat → Option Str}
    (hf : ∀ k, ORel (f u k) (f v k)) :
    ∀ k, ORel (rbFind f u k) (rbFind f v k) := by
  intro k
  induction k with
  | zero => exact hf 0
  | succ n ih =>
    have hk := hf (n + 1)
    rw [rbFind, rbFind]
    cases hu : f u (n + 1) with
    | some r1 =>
      cases hv : f v (n + 1) with
      | some r2 =>
        rw [hu, hv] at hk
        exact hk
      | none =>
        rw [hu, hv] at hk
        exact hk.elim
    | none =>
      cases hv : f v (n + 1) with
      | some r2 =>
        rw [hu, hv] at hk
        exact hk.elim
      | none => exact ih

theorem removeBlankLines_rel {u v : Str} (h : u.map up = v.map up) :
    (removeBlankLines u).map up = (removeBlankLines v).map up := by
  simp only [removeBlankLines]
  rw [rel_length h]
  have h1 : ORel (rbFind rbAtCRLF u v.length) (rbFind rbAtCRLF v v.length) :=
    rbFind_rel (fun k => rbAtCRLF_rel k h) v.length
  have hs1 : ((rbFind rbAtCRLF u v.length).getD u).map up =
      ((rbFind rbAtCRLF v v.length).getD v).map up := by
    cases hu : rbFind rbAtCRLF u v.length with
    | some r1 =>
      cases hv : rbFind rbAtCRLF v v.length with
      | some r2 =>
        rw [hu, hv] at h1
        exact h1
      | none => rw [hu, hv] at h1; exact h1.elim
    | none =>
      cases hv : rbFind rbAtCRLF v v.length with
      | some r2 => rw [hu, hv] at h1; exact h1.elim
      | none => exact h
  rw [rel_length hs1]
  have h2 : ORel
      (rbFind rbAtLF ((rbFind rbAtCRLF u v.length).getD u)
        ((rbFind rbAtCRLF v v.length).getD v).length)
      (rbFind rbAtLF ((rbFind rbAtCRLF v v.length).getD v)
        ((rbFind rbAtCRLF v v.length).getD v).length) :=
    rbFind_rel (fun k => rbAtLF_rel k hs1) _
  cases hu : rbFind rbAtLF ((rbFind rbAtCRLF u v.length).getD u)
      ((rbFind rbAtCRLF v v.length).getD v).length with
  | some r1 =>
    cases hv : rbFind rbAtLF ((rbFind rbAtCRLF v v.length).getD v)
        ((rbFind rbAtCRLF v v.length).getD v).length with
    | some r2 =>
      rw [hu, hv] at h2
      simpa using h2
    | none => rw [hu, hv] at h2; exact h2.elim
  | none =>
    cases hv : rbFind rbAtLF ((rbFind rbAtCRLF v v.length).getD v)
        ((rbFind rbAtCRLF v v.length).getD v).length with
    | some r2 => rw [hu, hv] at h2; exact h2.elim
    | none => simpa using hs1

theorem stripWs_rel {u v : Str} (h : u.map up = v.map up) :
    (stripWs u).map up = (stripWs v).map up := by
  unfold stripWs
  rw [List.map_reverse, List.map_reverse]
  refine congrArg List.reverse ?_
  apply dropWhile_rel isWsC_up
  rw [List.map_reverse, List.map_reverse]
  exact congrArg List.reverse (dropWhile_rel isWsC_up h)

theorem trimLines_rel {u v : Str} (h : u.map up = v.map up) :
    (trimLines u).map up = (trimLines v).map up := by
  unfold trimLines
  exact joinCh_rel '\n' (mapF_rel (fun hx => stripWs_rel hx) (splitCh_rel (by decide) h))

theorem cleanSql_rel {u v : Str} (h : u.map up = v.map up) :
    (cleanSql u).map up = (cleanSql v).map up :=
  trimLines_rel (removeBlankLines_rel (removeComments_rel h))

theorem ORel_isSome {o1 o2 : Option Str} (h : ORel o1 o2) : o1.isSome = o2.isSome := by
  cases o1 with
  | none =>
    cases o2 with
    | none => rfl
    | some => exact h.elim
  | some r1 =>
    cases o2 with
    | none => exact h.elim
    | some => rfl

theorem bindS_ORel {m1 m2 : Option Str} (hm : ORel m1 m2) {f1 f2 : Str → Option Str}
    (hf : ∀ {x y : Str}, x.map up = y.map up → ORel (f1 x) (f2 y)) :
    ORel (m1.bind f1) (m2.bind f2) := by
  cases m1 with
  | none =>
    cases m2 with
    | none => trivial
    | some => exact hm.elim
  | some r1 =>
    cases m2 with
    | none => exact hm.elim
    | some r2 => exact hf hm

theorem bindS_OPRel {α : Type} {m1 m2 : Option Str} (hm : ORel m1 m2)
    {f1 f2 : Str → Option (α × Str)}
    (hf : ∀ {x y : Str}, x.map up = y.map up → OPRel (f1 x) (f2 y)) :
    OPRel (m1.bind f1) (m2.bind f2) := by
  cases m1 with
  | none =>
    cases m2 with
    | none => trivial
    | some => exact hm.elim
  | some r1 =>
    cases m2 with
    | none => exact hm.elim
    | some r2 => exact hf hm

theorem bindCap_OPRel {β α : Type} {m1 m2 : Option (β × Str)} (hm : OPRel m1 m2)
    {f1 f2 : β × Str → Option (α × Str)}
    (hf : ∀ (cap : β) {x y : Str}, x.map up = y.map up →
      OPRel (f1 (cap, x)) (f2 (cap, y))) :
    OPRel (m1.bind f1) (m2.bind f2) := by
  cases m1 with
  | none =>
    cases m2 with
    | none => trivial
    | some => exact hm.elim
  | some p1 =>
    cases m2 with
    | none => exact hm.elim
    | some p2 =>
      obtain ⟨a1, r1⟩ := p1
      obtain ⟨a2, r2⟩ := p2
      obtain ⟨ha, hr⟩ := hm
      subst ha
      exact hf a1 hr

theorem litM_rel (kw : Str) : ∀ {u v : Str}, u.map up = v.map up →
    ORel (litM kw u) (litM kw v) := by
  induction kw with
  | nil => intro u v h; exact h
  | cons p ps ih =>
    intro u v h
    cases u with
    | nil =>
      cases v with
      | nil => trivial
      | cons => cases h
    | cons a u' =>
      cases v with
      | nil => cases h
      | cons b v' =>
        obtain ⟨h1, h2⟩ := rel_cons h
        rw [litM, litM]
        by_cases hp : up a = p
        · rw [if_pos hp, if_pos (h1.symm.trans hp)]
          exact ih h2
        · rw [if_neg hp, if_neg fun hb => hp (h1.trans hb)]
          trivial

theorem ws0_rel {u v : Str} (h : u.map up = v.map up) :
    (ws0 u).map up = (ws0 v).map up :=
  dropWhile_rel isWsC_up h

theorem ws1_rel {u v : Str} (h : u.map up = v.map up) : ORel (ws1 u) (ws1 v) := by
  cases u with
  | nil =>
    cases v with
    | nil => trivial
    | cons => cases h
  | cons a u' =>
    cases v with
    | nil => cases h
    | cons b v' =>
      obtain ⟨h1, h2⟩ := rel_cons h
      rw [ws1, ws1, test_transport isWsC_up h1]
      by_cases hb : isWsC b
      · rw [if_pos hb, if_pos hb]
        exact ws0_rel h2
      · rw [if_neg hb, if_neg hb]
        trivial

theorem isDot_up (c : Char) : isDot (up c) = isDot c := by
  rw [Bool.eq_iff_iff]
  by_cases h : 97 ≤ cn c ∧ cn c ≤ 122
  · have h2 := cn_up_low h
    simp only [isDot, beq_iff_eq]
    omega
  · rw [up_eq_self h]

theorem expectDot_rel {u v : Str} (h : u.map up = v.map up) :
    ORel (expectDot u) (expectDot v) := by
  cases u with
  | nil =>
    cases v with
    | nil => trivial
    | cons => cases h
  | cons a u' =>
    cases v with
    | nil => cases h
    | cons b v' =>
      obtain ⟨h1, h2⟩ := rel_cons h
      rw [expectDot, expectDot, test_transport isDot_up h1]
      by_cases hb : isDot b
      · rw [if_pos hb, if_pos hb]
        exact h2
      · rw [if_neg hb, if_neg hb]
        trivial

theorem grabGrp_rel {u v : Str} (h : u.map up = v.map up) :
    OPRel (grabGrp u) (grabGrp v) := by
  unfold grabGrp
  have htw := takeWhile_rel isClassC_up h
  have hie : (u.takeWhile isClassC).isEmpty = (v.takeWhile isClassC).isEmpty := by
    cases hu2 : u.takeWhile isClassC with
    | nil =>
      cases hv2 : v.takeWhile isClassC with
      | nil => rfl
      | cons => rw [hu2, hv2] at htw; cases htw
    | cons x xs =>
      cases hv2 : v.takeWhile isClassC with
      | nil => rw [hu2, hv2] at htw; cases htw
      | cons => rfl
  rw [hie]
  by_cases he : (v.takeWhile isClassC).isEmpty
  · rw [if_pos he, if_pos he]
    trivial
  · rw [if_neg he, if_neg he]
    exact ⟨htw, dropWhile_rel isClassC_up h⟩

theorem tail2_rel {u v : Str} (h : u.map up = v.map up) : OPRel (tail2 u) (tail2 v) := by
  show OPRel
    ((ws1 u).bind fun s1 => (grabGrp s1).bind fun p =>
      (expectDot (ws0 p.2)).bind fun s3 => (grabGrp (ws0 s3)).bind fun q =>
        some ((p.1, q.1), q.2))
    ((ws1 v).bind fun s1 => (grabGrp s1).bind fun p =>
      (expectDot (ws0 p.2)).bind fun s3 => (grabGrp (ws0 s3)).bind fun q =>
        some ((p.1, q.1), q.2))
  refine bindS_OPRel (ws1_rel h) fun hx => ?_
  refine bindCap_OPRel (grabGrp_rel hx) fun a {x y} hy => ?_
  refine bindS_OPRel (expectDot_rel (ws0_rel hy)) fun hz => ?_
  refine bindCap_OPRel (grabGrp_rel (ws0_rel hz)) fun b {x y} hw => ?_
  exact ⟨rfl, hw⟩

theorem mFrom_rel {u v : Str} (h : u.map up = v.map up) :
    OPRel (mFrom u) (mFrom v) := by
  show OPRel ((litM kwFROM u).bind fun s => tail2 s)
    ((litM kwFROM v).bind fun s => tail2 s)
  exact bindS_OPRel (litM_rel kwFROM h) fun hx => tail2_rel hx

theorem mJoin_rel {u v : Str} (h : u.map up = v.map up) :
    OPRel (mJoin u) (mJoin v) := by
  show OPRel ((litM kwJOIN u).bind fun s => tail2 s)
    ((litM kwJOIN v).bind fun s => tail2 s)
  exact bindS_OPRel (litM_rel kwJOIN h) fun hx => tail2_rel hx

theorem mCreateTable_rel {u v : Str} (h : u.map up = v.map up) :
    OPRel (mCreateTable u) (mCreateTable v) := by
  show OPRel
    ((litM kwCREATE u).bind fun s1 => (ws1 s1).bind fun s2 =>
      (litM kwTABLE s2).bind fun s3 => tail2 s3)
    ((litM kwCREATE v).bind fun s1 => (ws1 s1).bind fun s2 =>
      (litM kwTABLE s2).bind fun s3 => tail2 s3)
  exact bindS_OPRel (litM_rel _ h) fun h1 => bindS_OPRel (ws1_rel h1) fun h2 =>
    bindS_OPRel (litM_rel _ h2) fun h3 => tail2_rel h3

theorem mCreateHadoopTable_rel {u v : Str} (h : u.map up = v.map up) :
    OPRel (mCreateHadoopTable u) (mCreateHadoopTable v) := by
  show OPRel
    ((litM kwCREATE u).bind fun s1 => (ws1 s1).bind fun s2 =>
      (litM kwHADOOP s2).bind fun s3 => (ws1 s3).bind fun s4 =>
        (litM kwTABLE s4).bind fun s5 => tail2 s5)
    ((litM kwCREATE v).bind fun s1 => (ws1 s1).bind fun s2 =>
      (litM kwHADOOP s2).bind fun s3 => (ws1 s3).bind fun s4 =>
        (litM kwTABLE s4).bind fun s5 => tail2 s5)
  exact bindS_OPRel (litM_rel _ h) fun h1 => bindS_OPRel (ws1_rel h1) fun h2 =>
    bindS_OPRel (litM_rel _ h2) fun h3 => bindS_OPRel (ws1_rel h3) fun h4 =>
    bindS_OPRel (litM_rel _ h4) fun h5 => tail2_rel h5

theorem mIntoTable_rel {u v : Str} (h : u.map up = v.map up) :
    OPRel (mIntoTable u) (mIntoTable v) := by
  show OPRel
    ((litM kwINTO u).bind fun s1 => (ws1 s1).bind fun s2 =>
      (litM kwTABLE s2).bind fun s3 => tail2 s3)
    ((litM kwINTO v).bind fun s1 => (ws1 s1).bind fun s2 =>
      (litM kwTABLE s2).bind fun s3 => tail2 s3)
  exact bindS_OPRel (litM_rel _ h) fun h1 => bindS_OPRel (ws1_rel h1) fun h2 =>
    bindS_OPRel (litM_rel _ h2) fun h3 => tail2_rel h3

theorem mInsertInto_rel {u v : Str} (h : u.map up = v.map up) :
    OPRel (mInsertInto u) (mInsertInto v) := by
  show OPRel
    ((litM kwINSERT u).bind fun s1 => (ws1 s1).bind fun s2 =>
      (litM kwINTO s2).bind fun s3 => tail2 s3)
    ((litM kwINSERT v).bind fun s1 => (ws1 s1).bind fun s2 =>
      (litM kwINTO s2).bind fun s3 => tail2 s3)
  exact bindS_OPRel (litM_rel _ h) fun h1 => bindS_OPRel (ws1_rel h1) fun h2 =>
    bindS_OPRel (litM_rel _ h2) fun h3 => tail2_rel h3

theorem mRename_rel {u v : Str} (h : u.map up = v.map up) :
    OPRel (mRename u) (mRename v) := by
  show OPRel
    ((litM kwRENAME u).bind fun s1 => (ws1 s1).bind fun s2 =>
      (litM kwTABLE s2).bind fun s3 => (tail2 s3).bind fun p =>
        (ws1 p.2).bind fun s5 => (litM kwTO s5).bind fun s6 =>
          (ws1 s6).bind fun s7 => (grabGrp s7).bind fun q =>
            some ((p.1.1, p.1.2, q.1), q.2))
    ((litM kwRENAME v).bind fun s1 => (ws1 s1).bind fun s2 =>
      (litM kwTABLE s2).bind fun s3 => (tail2 s3).bind fun p =>
        (ws1 p.2).bind fun s5 => (litM kwTO s5).bind fun s6 =>
          (ws1 s6).bind fun s7 => (grabGrp s7).bind fun q =>
            some ((p.1.1, p.1.2, q.1), q.2))
  exact bindS_OPRel (litM_rel _ h) fun h1 => bindS_OPRel (ws1_rel h1) fun h2 =>
    bindS_OPRel (litM_rel _ h2) fun h3 => bindCap_OPRel (tail2_rel h3) fun ab {x1 y1} h4 =>
    bindS_OPRel (ws1_rel h4) fun h5 => bindS_OPRel (litM_rel _ h5) fun h6 =>
    bindS_OPRel (ws1_rel h6) fun h7 => bindCap_OPRel (grabGrp_rel h7) fun c {x2 y2} h8 =>
    ⟨rfl, h8⟩

theorem scanP_rel {α : Type} {m : Str → Option (α × Str)}
    (hm : ∀ {x y : Str}, x.map up = y.map up → OPRel (m x) (m y)) :
    ∀ (fu : Nat) {u v : Str}, u.map up = v.map up → scanP m fu u = scanP m fu v := by
  intro fu
  induction fu with
  | zero => intro u v h; rfl
  | succ n ih =>
    intro u v h
    cases u with
    | nil =>
      cases v with
      | nil => rfl
      | cons => cases h
    | cons c cs =>
      cases v with
      | nil => cases h
      | cons d ds =>
        obtain ⟨h1, h2⟩ := rel_cons h
        have hmm := hm h
        cases hu : m (c :: cs) with
        | some p1 =>
          cases hv : m (d :: ds) with
          | some p2 =>
            obtain ⟨q1, r1⟩ := p1
            obtain ⟨q2, r2⟩ := p2
            rw [hu, hv] at hmm
            obtain ⟨hq, hr⟩ := hmm
            subst hq
            simp only [scanP, hu, hv]
            rw [ih hr]
          | none =>
            rw [hu, hv] at hmm
            exact hmm.elim
        | none =>
          cases hv : m (d :: ds) with
          | some p2 =>
            rw [hu, hv] at hmm
            exact hmm.elim
          | none =>
            simp only [scanP, hu, hv]
            exact ih h2

theorem findAll_rel {α : Type} (m : Str → Option (α × Str))
    (hm : ∀ {x y : Str}, x.map up = y.map up → OPRel (m x) (m y))
    {u v : Str} (h : u.map up = v.map up) : findAll m u = findAll m v := by
  unfold findAll
  rw [rel_length h]
  exact scanP_rel hm v.length h

theorem containsKw_rel (kw : Str) : ∀ {u v : Str}, u.map up = v.map up →
    containsKw kw u = containsKw kw v := by
  intro u
  induction u with
  | nil => intro v h; rw [(List.map_eq_nil_iff.mp h.symm : v = [])]
  | cons a u' ih =>
    intro v h
    cases v with
    | nil => cases h
    | cons b v' =>
      obtain ⟨h1, h2⟩ := rel_cons h
      rw [containsKw, containsKw, ORel_isSome (litM_rel kw h), ih h2]

theorem maskAfterParen_rel {u v : Str} (h : u.map up = v.map up) :
    ORel (maskAfterParen u) (maskAfterParen v) := by
  unfold maskAfterParen
  have hd := dropWhile_rel notRParen_up h
  cases hu : u.dropWhile notRParen with
  | nil =>
    cases hv : v.dropWhile notRParen with
    | nil => trivial
    | cons => rw [hu, hv] at hd; cases hd
  | cons c1 r1 =>
    cases hv : v.dropWhile notRParen with
    | nil => rw [hu, hv] at hd; cases hd
    | cons d1 s1 =>
      obtain ⟨h1, h2⟩ := rel_cons (hu ▸ hv ▸ hd)
      dsimp only
      rw [containsKw_rel kwFROM (takeWhile_rel notRParen_up h)]
      by_cases hb : containsKw kwFROM (v.takeWhile notRParen)
      · rw [if_pos hb, if_pos hb]
        exact h2
      · rw [if_neg hb, if_neg hb]
        trivial

theorem mMaskOne_rel (kw : Str) {u v : Str} (h : u.map up = v.map up) :
    ORel (mMaskOne kw u) (mMaskOne kw v) := by
  show ORel
    ((litM kw u).bind fun s =>
      match ws0 s with
      | c :: cs => if isLParen c then maskAfterParen cs else none
      | [] => none)
    ((litM kw v).bind fun s =>
      match ws0 s with
      | c :: cs => if isLParen c then maskAfterParen cs else none
      | [] => none)
  refine bindS_ORel (litM_rel kw h) fun hx => ?_
  next x y =>
  have hw := ws0_rel hx
  cases hu : ws0 x with
  | nil =>
    cases hv : ws0 y with
    | nil => trivial
    | cons => rw [hu, hv] at hw; cases hw
  | cons c cs =>
    cases hv : ws0 y with
    | nil => rw [hu, hv] at hw; cases hw
    | cons d ds =>
      rw [hu, hv] at hw
      obtain ⟨h1, h2⟩ := rel_cons hw
      dsimp only
      rw [test_transport isLParen_up h1]
      by_cases hb : isLParen d
      · rw [if_pos hb, if_pos hb]
        exact maskAfterParen_rel h2
      · rw [if_neg hb, if_neg hb]
        trivial

theorem maskScan_rel (kw : Str) : ∀ (fu : Nat) {u v : Str}, u.map up = v.map up →
    (maskScan kw fu u).map up = (maskScan kw fu v).map up := by
  intro fu
  induction fu with
  | zero => exact fun h => h
  | succ n ih =>
    intro u v h
    cases u with
    | nil =>
      cases v with
      | nil => rfl
      | cons => cases h
    | cons c cs =>
      cases v with
      | nil => cases h
      | cons d ds =>
        obtain ⟨h1, h2⟩ := rel_cons h
        have hm := mMaskOne_rel kw h
        cases hu : mMaskOne kw (c :: cs) with
        | some r1 =>
          cases hv : mMaskOne kw (d :: ds) with
          | some r2 =>
            rw [hu, hv] at hm
            simp only [maskScan, hu, hv, List.map_cons]
            rw [ih hm]
          | none =>
            rw [hu, hv] at hm
            exact hm.elim
        | none =>
          cases hv : mMaskOne kw (d :: ds) with
          | some r2 =>
            rw [hu, hv] at hm
            exact hm.elim
          | none =>
            simp only [maskScan, hu, hv, List.map_cons]
            rw [h1, ih h2]

theorem maskTE_rel {u v : Str} (h : u.map up = v.map up) :
    (maskTE u).map up = (maskTE v).map up := by
  simp only [maskTE]
  rw [rel_length h]
  have h1 := maskScan_rel kwTRIM v.length h
  rw [rel_length h1]
  exact maskScan_rel kwEXTRACT _ h1

theorem idSourceTables_eq {u v : Str} (h : u.map up = v.map up) :
    idSourceTables u = idSourceTables v := by
  simp only [idSourceTables]
  rw [findAll_rel mFrom (fun hx => mFrom_rel hx) (maskTE_rel h),
    findAll_rel mJoin (fun hx => mJoin_rel hx) (maskTE_rel h)]

theorem idTargetTables_eq {u v : Str} (h : u.map up = v.map up) :
    idTargetTables u = idTargetTables v := by
  simp only [idTargetTables]
  rw [findAll_rel mCreateTable (fun hx => mCreateTable_rel hx) h,
    findAll_rel mCreateHadoopTable (fun hx => mCreateHadoopTable_rel hx) h]

theorem idRenamedTables_eq {u v : Str} (h : u.map up = v.map up) :
    idRenamedTables u = idRenamedTables v := by
  simp only [idRenamedTables]
  rw [findAll_rel mRename (fun hx => mRename_rel hx) h]

theorem idPopulatedTables_eq {u v : Str} (h : u.map up = v.map up) :
    idPopulatedTables u = idPopulatedTables v := by
  simp only [idPopulatedTables]
  rw [findAll_rel mIntoTable (fun hx => mIntoTable_rel hx) h,
    findAll_rel mInsertInto (fun hx => mInsertInto_rel hx) h]

theorem keys_upsert_congr {r1 r2 : Registry} (h : r1.map Prod.fst = r2.map Prod.fst)
    (k : Str) (f1 f2 : TableObj → TableObj) :
    (upsert r1 k f1).map Prod.fst = (upsert r2 k f2).map Prod.fst := by
  rw [keys_upsert, keys_upsert]
  have hs : (rlook r1 k).isSome = (rlook r2 k).isSome := by
    rw [Bool.eq_iff_iff, rlook_isSome_iff, rlook_isSome_iff, h]
  rw [hs, h]

theorem keys_procSources_congr (l : List Str) :
    ∀ {r1 r2 : Registry}, r1.map Prod.fst = r2.map Prod.fst →
      (procSources r1 l).map Prod.fst = (procSources r2 l).map Prod.fst := by
  induction l with
  | nil => exact fun h => h
  | cons x xs ih =>
    intro r1 r2 h
    rw [procSources_cons, procSources_cons]
    exact ih (keys_upsert_congr h x _ _)

theorem keys_procTargets_congr (sq1 sq2 : Str) (l : List Str) :
    ∀ {r1 r2 : Registry}, r1.map Prod.fst = r2.map Prod.fst →
      (procTargets sq1 r1 l).map Prod.fst = (procTargets sq2 r2 l).map Prod.fst := by
  induction l with
  | nil => exact fun h => h
  | cons x xs ih =>
    intro r1 r2 h
    rw [procTargets_cons, procTargets_cons]
    exact ih (keys_upsert_congr h x _ _)

theorem keys_procRenames_congr (sq1 sq2 : Str) (l : List (Str × Str)) :
    ∀ {r1 r2 : Registry}, r1.map Prod.fst = r2.map Prod.fst →
      (procRenames sq1 r1 l).map Prod.fst = (procRenames sq2 r2 l).map Prod.fst := by
  induction l with
  | nil => exact fun h => h
  | cons p ps ih =>
    intro r1 r2 h
    rw [procRenames_cons, procRenames_cons]
    exact ih (keys_upsert_congr (keys_upsert_congr h p.1 _ _) p.2 _ _)

theorem keys_procPops_congr (sq1 sq2 : Str) (l : List Str) :
    ∀ {r1 r2 : Registry}, r1.map Prod.fst = r2.map Prod.fst →
      (procPops sq1 r1 l).map Prod.fst = (procPops sq2 r2 l).map Prod.fst := by
  induction l with
  | nil => exact fun h => h
  | cons x xs ih =>
    intro r1 r2 h
    rw [procPops_cons, procPops_cons]
    exact ih (keys_upsert_congr h x _ _)

theorem keys_processStmt_congr {r1 r2 : Registry}
    (h : r1.map Prod.fst = r2.map Prod.fst) (si1 si2 : StmtInfo)
    (hs : si1.sources = si2.sources) (ht : si1.targets = si2.targets)
    (hr : si1.renames = si2.renames) (hp : si1.pops = si2.pops) :
    (processStmt r1 si1).map Prod.fst = (processStmt r2 si2).map Prod.fst := by
  unfold processStmt
  rw [hs, ht, hr, hp]
  exact keys_procPops_congr _ _ _ (keys_procRenames_congr _ _ _
    (keys_procTargets_congr _ _ _ (keys_procSources_congr _ h)))

theorem analyzeKeys_congr : ∀ {ls1 ls2 : List Str},
    ls1.map (List.map up) = ls2.map (List.map up) →
    ∀ {r1 r2 : Registry}, r1.map Prod.fst = r2.map Prod.fst →
      ((ls1.map stmtInfo).foldl processStmt r1).map Prod.fst =
        ((ls2.map stmtInfo).foldl processStmt r2).map Prod.fst := by
  intro ls1
  induction ls1 with
  | nil =>
    intro ls2 h r1 r2 hr
    rw [(List.map_eq_nil_iff.mp h.symm : ls2 = [])]
    exact hr
  | cons st sts ih =>
    intro ls2 h r1 r2 hr
    cases ls2 with
    | nil => cases h
    | cons st2 sts2 =>
      simp only [List.map_cons] at h
      have h1 := List.head_eq_of_cons_eq h
      have h2 := List.tail_eq_of_cons_eq h
      simp only [List.map_cons, List.foldl_cons]
      exact ih h2 (keys_processStmt_congr hr (stmtInfo st) (stmtInfo st2)
        (idSourceTables_eq h1) (idTargetTables_eq h1) (idRenamedTables_eq h1)
        (idPopulatedTables_eq h1))

/-- C7: extraction is case-insensitive end-to-end.  Any two input texts
with the same upper-case image (i.e. differing only in letter case)
produce registries with identical key lists and identical stored
`full_name` lists — matched identifiers are upper-cased before being used
as registry keys, and every normalization/scanning stage of `analyze`
factors through that upper-casing. -/
theorem extraction_case_insensitive (s t : Str) (h : s.map up = t.map up) :
    (analyzeReg s).map Prod.fst = (analyzeReg t).map Prod.fst ∧
      (analyzeReg s).map (fun p => p.2.fullName) =
        (analyzeReg t).map (fun p => p.2.fullName) := by
  have hkeys : (analyzeReg s).map Prod.fst = (analyzeReg t).map Prod.fst := by
    unfold analyzeReg
    exact analyzeKeys_congr (splitCh_rel (by decide) (cleanSql_rel h)) rfl
  refine ⟨hkeys, ?_⟩
  rw [List.map_congr_left fun p hp => (analyzeReg_wf s).2 p hp,
    List.map_congr_left fun p hp => (analyzeReg_wf t).2 p hp, hkeys]

theorem extraction_case_insensitive_witness :
    "select * from schema.table".data.map up =
      "SELECT * FROM SCHEMA.TABLE".data.map up ∧
    (analyzeReg "select * from schema.table".data).map Prod.fst =
      (analyzeReg "SELECT * FROM SCHEMA.TABLE".data).map Prod.fst ∧
    (analyzeReg "select * from schema.table".data).map Prod.fst =
      ["SCHEMA.TABLE".data] :=
  ⟨by decide,
   (extraction_case_insensitive "select * from schema.table".data
      "SELECT * FROM SCHEMA.TABLE".data (by decide)).1,
   by rfl⟩
